import Mathlib

/-
Shallow embedding of src/connect_four.py.

Representation choices:
* A grid is stored as the list of its columns, each column listed from the
  top row (index 0) down to the bottom row (index rows-1).  Python's
  `board.grid[r][c]` is `getCell g r c`.  The board dimensions `rows` and
  `columns` are passed explicitly, mirroring `board.rows` / `board.columns`.
* A cell holds one character; the empty cell is the space character `blank`.
* Python list indexing is total on `-len <= i < len`, with negative indices
  counting from the end; `pyIdx` reproduces this.  A read that Python would
  raise an IndexError on is given the harmless default `blank`; no execution
  path of the embedded program reaches one.
* Loops with data-dependent exits are written as structural recursions whose
  recursion argument is the loop counter (or an explicit iteration bound that
  the loop's guard makes unreachable, noted at each definition).
-/

namespace ConnectFour

/-- The empty-cell character, Python's one-space string. -/
def blank : Char := Char.ofNat 32

/-- A board grid: the list of its columns, each column top row first. -/
abbrev Grid := List (List Char)

/-- Python's `board.grid[r][c]` for in-range indices (row `r`, column `c`). -/
def getCell (g : Grid) (r c : Nat) : Char := (g.getD c []).getD r blank

/-- Python's `board.grid[r][c] = v` for in-range indices. -/
def setCell (g : Grid) (r c : Nat) (v : Char) : Grid :=
  g.set c ((g.getD c []).set r v)

/-- Python list indexing: defined on `-n <= i < n`, negative indices count
from the end of the list. -/
def pyIdx (n : Nat) (i : Int) : Option Nat :=
  if 0 ≤ i then (if i < (n : Int) then some i.toNat else none)
  else (if 0 ≤ i + (n : Int) then some (i + (n : Int)).toNat else none)

/-- Python's `board.grid[r][c]` read with Python indexing semantics on both
axes (the row axis has length `rows`, the column axis length `cols`). -/
def pyCell (rows cols : Nat) (g : Grid) (r c : Int) : Char :=
  match pyIdx rows r, pyIdx cols c with
  | some r0, some c0 => getCell g r0 c0
  | _, _ => blank

/-- Python's `board.grid[r][c] = v` write with Python indexing on the row. -/
def pySetCell (rows : Nat) (g : Grid) (r : Int) (c : Nat) (v : Char) : Grid :=
  match pyIdx rows r with
  | some r0 => setCell g r0 c v
  | none => g

/-- The grid is a `rows × cols` rectangle. -/
def Rect (rows cols : Nat) (g : Grid) : Prop :=
  g.length = cols ∧ ∀ col ∈ g, col.length = rows

/-- No occupied cell of the column has an empty cell directly beneath it
(row `r+1` is directly beneath row `r`): the spec's no-floating invariant,
stated per column. -/
def SettledCol (col : List Char) : Prop :=
  ∀ r, r < col.length - 1 → col.getD (r + 1) blank = blank → col.getD r blank = blank

/-- The no-floating invariant for the whole grid. -/
def SettledGrid (g : Grid) : Prop := ∀ col ∈ g, SettledCol col

/-- The symbol `sym` appears nowhere on the grid. -/
def NoSym (g : Grid) (sym : Char) : Prop := ∀ col ∈ g, ∀ ch ∈ col, ch ≠ sym

/-- The coordinate (row, column) lies inside the declared board dimensions. -/
def InB (rows cols : Nat) (p : Int × Int) : Prop :=
  0 ≤ p.1 ∧ p.1 < (rows : Int) ∧ 0 ≤ p.2 ∧ p.2 < (cols : Int)

instance (col : List Char) : Decidable (SettledCol col) := by
  unfold SettledCol; infer_instance

instance (g : Grid) : Decidable (SettledGrid g) := by
  unfold SettledGrid; infer_instance

instance (rows cols : Nat) (g : Grid) : Decidable (Rect rows cols g) := by
  unfold Rect; infer_instance

instance (g : Grid) (sym : Char) : Decidable (NoSym g sym) := by
  unfold NoSym; infer_instance

instance (rows cols : Nat) (p : Int × Int) : Decidable (InB rows cols p) := by
  unfold InB; infer_instance

/-! ### Gravity (`gravity_decorator`, lines 10-28)

The decorator's inner double loop walks the columns one by one; inside one
column it visits the rows from `rows - 2` down to `0` and drops an occupant
into an empty cell directly below it.  Distinct columns never interact, so one
full pass of the double loop is one pass over each column.  A single column
pass, read bottom row first, is `fallPass`: `below` carries the current value
of the cell directly beneath the cell `x` being visited. -/

/-- One gravity pass over the cells of a column listed bottom row first;
`below` is the current content of the cell beneath the head.  Returns the
updated cells (the final content of the `below` cell first) and whether any
piece moved. -/
def fallPass : Char → List Char → List Char × Bool
  | below, [] => ([below], false)
  | below, x :: rest =>
    if x ≠ blank ∧ below = blank then
      let p := fallPass blank rest
      (x :: p.1, true)
    else
      let p := fallPass x rest
      (below :: p.1, p.2)

/-- One full pass of the decorator's inner double loop over one (top row
first) column: rows `rows - 2` down to `0`, each compared with the row below. -/
def colPass (col : List Char) : List Char × Bool :=
  match col.reverse with
  | [] => ([], false)
  | b :: rest =>
    let p := fallPass b rest
    (p.1.reverse, p.2)

/-- One full pass of the decorator's double loop over the whole grid, with
the pass's `moved` flag. -/
def sweepGrid (g : Grid) : Grid × Bool :=
  (g.map (fun col => (colPass col).1), g.any (fun col => (colPass col).2))

/-- Helper for the termination measure: number of empty cells strictly below
each occupied cell, summed, for a column listed bottom row first; `b` counts
the empty cells already passed. -/
def mcol (b : Nat) : List Char → Nat
  | [] => 0
  | x :: l => if x = blank then mcol (b + 1) l else b + mcol b l

/-- Total height-above-support of the occupied cells of one column. -/
def colMeasure (col : List Char) : Nat := mcol 0 col.reverse

/-- Total height-above-support of all occupied cells of the grid: the
quantity each gravity move strictly decreases. -/
def gridMeasure (g : Grid) : Nat := (g.map colMeasure).sum

/-- `n` iterations of the decorator's `while moved` loop body. -/
def sweepIter : Nat → Grid → Grid
  | 0, g => g
  | n + 1, g => sweepIter n (sweepGrid g).1

/-- The decorator's `while moved == True` loop, run with enough fuel to reach
the fixed point (one flagged pass strictly decreases `gridMeasure`, so
`gridMeasure g + 1` passes always suffice; see the gravity lemmas). -/
def normGo : Nat → Grid → Grid
  | 0, g => g
  | fuel + 1, g =>
    let p := sweepGrid g
    if p.2 then normGo fuel p.1 else p.1

/-- Gravity applied to the whole board after a decorated insertion. -/
def normalize (g : Grid) : Grid := normGo (gridMeasure g + 1) g

/-! ### Standard placement (`Piece.insert`, lines 108-129) -/

/-- The `for row in range(board.rows - 1, -1, -1)` scan of `Piece.insert`:
the recursion argument is the loop counter, so `findLowestBlankGo g c k`
first inspects row `k - 1` and walks up to row `0`. -/
def findLowestBlankGo (g : Grid) (c : Nat) : Nat → Option Nat
  | 0 => none
  | k + 1 => if getCell g k c = blank then some k else findLowestBlankGo g c k

/-- First empty row of column `c` counting from the bottom, if any. -/
def findLowestBlank (rows : Nat) (g : Grid) (c : Nat) : Option Nat :=
  findLowestBlankGo g c rows

/-- `Piece.insert`: bounds-check the 1-based column, then write the symbol
into the lowest empty row.  The Python method returns only True/False; the
row it wrote is returned here as well because that row is exactly the cell
the write occurred at. -/
def standardInsert (rows cols : Nat) (sym : Char) (g : Grid) (column : Int) :
    Option (Grid × Nat) :=
  let c0 := column - 1
  if 0 ≤ c0 ∧ c0 < (cols : Int) then
    match findLowestBlank rows g c0.toNat with
    | some r => some (setCell g r c0.toNat sym, r)
    | none => none
  else none

/-- The teleport piece's final loop (lines 646-651): drop a symbol into the
lowest empty row of column `c`; if the column has no empty row the loop ends
without writing. -/
def insertLowest (rows : Nat) (g : Grid) (c : Nat) (sym : Char) : Grid :=
  match findLowestBlank rows g c with
  | some r => setCell g r c sym
  | none => g

/-! ### Finding the landed row again -/

/-- The `inserted_row = -1; for row in range(board.rows - 1, -1, -1)` scan of
`BombPiece.insert` / `TeleportPiece.insert` (lines 572-579, 617-622): lowest
row of column `c` holding `sym`, or `-1` if there is none. -/
def findSymRowBottomGo (g : Grid) (c : Nat) (sym : Char) : Nat → Int
  | 0 => -1
  | k + 1 => if getCell g k c = sym then (k : Int) else findSymRowBottomGo g c sym k

/-- See `findSymRowBottomGo`; the scan starts at row `rows - 1`. -/
def findSymRowBottomI (rows : Nat) (g : Grid) (c : Nat) (sym : Char) : Int :=
  findSymRowBottomGo g c sym rows

/-- The `inserted_row = -1; for row in range(self.board.rows)` scan of
`Game.begin` (lines 325-331): topmost row of column `c` holding `sym`, or
`-1` if there is none.  The first argument of `findSymRowTopGo` is the number
of rows still to visit. -/
def findSymRowTopGo (g : Grid) (c : Nat) (sym : Char) : Nat → Nat → Int
  | 0, _ => -1
  | fuel + 1, k =>
    if getCell g k c = sym then (k : Int) else findSymRowTopGo g c sym fuel (k + 1)

/-- See `findSymRowTopGo`. -/
def findSymRowTopI (rows : Nat) (g : Grid) (c : Nat) (sym : Char) : Int :=
  findSymRowTopGo g c sym rows 0

/-! ### Bomb placement (`BombPiece.insert`, lines 559-589) -/

/-- The nine targets of the clearing double loop, in visiting order
(`row` outer from -1 to 1, `column` inner from -1 to 1). -/
def clearTargets (fr : Int) (c0 : Nat) : List (Int × Int) :=
  [((-1 : Int), (-1 : Int)), (-1, 0), (-1, 1),
   (0, -1), (0, 0), (0, 1),
   (1, -1), (1, 0), (1, 1)].map (fun d => (fr + d.1, (c0 : Int) + d.2))

/-- Clear every in-bounds target to `blank` (lines 582-588). -/
def clearCells (rows cols : Nat) : Grid → List (Int × Int) → Grid
  | g, [] => g
  | g, t :: ts =>
    let g2 :=
      if 0 ≤ t.1 ∧ t.1 < (rows : Int) ∧ 0 ≤ t.2 ∧ t.2 < (cols : Int) then
        setCell g t.1.toNat t.2.toNat blank
      else g
    clearCells rows cols g2 ts

/-- The undecorated body of `BombPiece.insert`: standard insertion, re-scan
for the bomb's own symbol from the bottom, clear the 3×3 neighbourhood of the
found cell. -/
def bombCore (rows cols : Nat) (g : Grid) (column : Int) : Grid × Bool :=
  match standardInsert rows cols 'B' g column with
  | none => (g, false)
  | some (g1, _) =>
    let c0 := (column - 1).toNat
    let fr := findSymRowBottomI rows g1 c0 'B'
    (clearCells rows cols g1 (clearTargets fr c0), true)

/-- `BombPiece.insert` with its `gravity_decorator`: the wrapper applies
gravity to the board whether or not the insertion succeeded, and returns the
insertion's flag. -/
def bombPlace (rows cols : Nat) (g : Grid) (column : Int) : Grid × Bool :=
  let p := bombCore rows cols g column
  (normalize p.1, p.2)

/-! ### Teleport placement (`TeleportPiece.insert`, lines 601-652) -/

/-- Lines 624-651 of `TeleportPiece.insert`, after the landed row has been
re-derived as `fr`: remove the T at `(fr, c0)`, compute the mirrored
coordinate through the board centre (`int(2 * ((n - 1) / 2) - i)` is exactly
`(n - 1) - i` for any index `i` the program produces), and if the mirrored
cell is in bounds and occupied, move its symbol to the lowest empty row of
column `c0`. -/
def teleportPhase (rows cols : Nat) (g1 : Grid) (fr : Int) (c0 : Nat) : Grid :=
  let g2 := pySetCell rows g1 fr c0 blank
  let mr : Int := ((rows : Int) - 1) - fr
  let mc : Int := ((cols : Int) - 1) - (c0 : Int)
  if 0 ≤ mr ∧ mr < (rows : Int) ∧ 0 ≤ mc ∧ mc < (cols : Int) then
    let t := getCell g2 mr.toNat mc.toNat
    if t ≠ blank then insertLowest rows (setCell g2 mr.toNat mc.toNat blank) c0 t
    else g2
  else g2

/-- The undecorated body of `TeleportPiece.insert`. -/
def teleportCore (rows cols : Nat) (g : Grid) (column : Int) : Grid × Bool :=
  match standardInsert rows cols 'T' g column with
  | none => (g, false)
  | some (g1, _) =>
    let c0 := (column - 1).toNat
    let fr := findSymRowBottomI rows g1 c0 'T'
    (teleportPhase rows cols g1 fr c0, true)

/-- `TeleportPiece.insert` with its `gravity_decorator`. -/
def teleportPlace (rows cols : Nat) (g : Grid) (column : Int) : Grid × Bool :=
  let p := teleportCore rows cols g column
  (normalize p.1, p.2)

/-- Modelled from the spec (§4.2 Swap.place) and the words of the claim: the
placed piece at the landing coordinate `(r, c0)` is removed; the mirror
coordinate is `((rows - 1) - r, (cols - 1) - c0)`; if the mirror cell is
occupied (an in-range mirror of an in-range cell is always in bounds, and the
now-emptied landing cell itself reads as empty) its symbol is removed and
inserted into the original column `c0` at its current lowest empty row;
otherwise the move's sole board effect is consuming the piece. -/
def swapSpecStep (rows cols : Nat) (g1 : Grid) (r c0 : Nat) : Grid :=
  let g2 := setCell g1 r c0 blank
  let mr := (rows - 1) - r
  let mc := (cols - 1) - c0
  if getCell g2 mr mc ≠ blank then
    insertLowest rows (setCell g2 mr mc blank) c0 (getCell g2 mr mc)
  else g2

/-! ### Players, pieces, inventories (`Player`, lines 132-212 and 148-161) -/

/-- A piece as held in an inventory: `Piece(symbol)`, `BombPiece()` or
`TeleportPiece()`. -/
inductive PieceT where
  | standard (sym : Char)
  | bomb
  | teleport
deriving DecidableEq, Repr

/-- `piece.symbol`: bomb pieces carry `B`, teleport pieces carry `T`. -/
def PieceT.symbol : PieceT → Char
  | .standard s => s
  | .bomb => 'B'
  | .teleport => 'T'

/-- Whether a piece is a plain `Piece(symbol)` (not a bomb, not a teleport). -/
def PieceT.isStandard : PieceT → Bool
  | .standard _ => true
  | .bomb => false
  | .teleport => false

/-- `Player.add_piece` (lines 148-161): append `quantity` pieces built from
the symbol, dispatching on the symbol being `B` or `T`. -/
def mkPiece (symbol : Char) : PieceT :=
  if symbol = 'B' then .bomb else if symbol = 'T' then .teleport else .standard symbol

/-- See `mkPiece`; the loop appends one piece per iteration. -/
def addPiece (pieces : List PieceT) (symbol : Char) : Nat → List PieceT
  | 0 => pieces
  | n + 1 => addPiece (pieces ++ [mkPiece symbol]) symbol n

/-- The piece allocation a player receives in `Game.setup` (lines 267-282):
their own symbol's pieces, then the teleport pieces, then the bomb pieces.
`first` selects player one, who gets the extra piece when `rows * cols` is
odd. -/
def playerStartPieces (first : Bool) (symbol : Char) (rows cols : Nat) : List PieceT :=
  let total := rows * cols
  let teleportTotal := total / 10
  let bombTotal := total / 20
  let q0 := total / 2
  let q := if first ∧ total % 2 ≠ 0 then q0 + 1 else q0
  addPiece (addPiece (addPiece [] symbol q) 'T' teleportTotal) 'B' bombTotal

/-- The inventory scan of `Player.choose_piece` (lines 207-212): remove the
first piece whose symbol matches, returning it and the remaining inventory. -/
def choosePiece : List PieceT → Char → Option (PieceT × List PieceT)
  | [], _ => none
  | p :: rest, chosen =>
    if p.symbol = chosen then some (p, rest)
    else
      match choosePiece rest chosen with
      | some (q, l) => some (q, p :: l)
      | none => none

/-- `piece.insert(self.board, int(column))` dispatched on the piece's class.
Only the bomb and teleport insertions are gravity-decorated. -/
def placePiece (rows cols : Nat) (p : PieceT) (g : Grid) (column : Int) : Grid × Bool :=
  match p with
  | .standard s =>
    match standardInsert rows cols s g column with
    | some (g2, _) => (g2, true)
    | none => (g, false)
  | .bomb => bombPlace rows cols g column
  | .teleport => teleportPlace rows cols g column

/-- One attempted move of the turn loop (lines 312-322): look the chosen
symbol up in the inventory (removing the found piece), then attempt the
placement.  When `choose_piece` fails, the loop `continue`s with nothing
changed; when the placement fails, the loop `continue`s but the popped piece
has already left the inventory. -/
def attemptMove (rows cols : Nat) (g : Grid) (pieces : List PieceT)
    (chosen : Char) (column : Int) : Grid × List PieceT × Bool :=
  match choosePiece pieces chosen with
  | none => (g, pieces, false)
  | some (p, rest) =>
    let r := placePiece rows cols p g column
    (r.1, rest, r.2)

/-! ### Win detection (`Game.begin`, lines 334-504)

Every directional scan records, besides its count, the list of coordinates at
which it read the grid (a read happens exactly when the loop guard in front of
it passes). -/

/-- A `while guard(r, c) and grid[r][c] == sym` walk in direction
`(dr, dc)`, counting matches.  The fuel is an iteration bound; every use
passes `rows + cols + 2`, which the guards keep unreachable. -/
def scanWhile (rows cols : Nat) (g : Grid) (sym : Char) (guard : Int → Int → Bool)
    (dr dc : Int) : Nat → Int → Int → Nat × List (Int × Int)
  | 0, _, _ => (0, [])
  | fuel + 1, r, c =>
    if guard r c then
      if pyCell rows cols g r c = sym then
        let p := scanWhile rows cols g sym guard dr dc fuel (r + dr) (c + dc)
        (p.1 + 1, (r, c) :: p.2)
      else (0, [(r, c)])
    else (0, [])

/-- The mover's four-axis win check anchored at `(r0, c0)` (lines 334-434):
horizontal, then the two diagonals, then vertical, each axis summing the two
outward walks onto the anchor's count of 1; true when any axis reaches 4.
Returns the flag and every grid read the walks performed. -/
def anchoredCheck (rows cols : Nat) (g : Grid) (sym : Char) (r0 c0 : Int) :
    Bool × List (Int × Int) :=
  let fuel := rows + cols + 2
  let hL := scanWhile rows cols g sym (fun _ c => decide (0 ≤ c)) 0 (-1) fuel r0 (c0 - 1)
  let hR := scanWhile rows cols g sym (fun _ c => decide (c < (cols : Int))) 0 1 fuel r0 (c0 + 1)
  let dUL := scanWhile rows cols g sym (fun r c => decide (0 ≤ r) && decide (0 ≤ c)) (-1) (-1) fuel (r0 - 1) (c0 - 1)
  let dDR := scanWhile rows cols g sym (fun r c => decide (r < (rows : Int)) && decide (c < (cols : Int))) 1 1 fuel (r0 + 1) (c0 + 1)
  let dUR := scanWhile rows cols g sym (fun r c => decide (0 ≤ r) && decide (c < (cols : Int))) (-1) 1 fuel (r0 - 1) (c0 + 1)
  let dDL := scanWhile rows cols g sym (fun r c => decide (r < (rows : Int)) && decide (0 ≤ c)) 1 (-1) fuel (r0 + 1) (c0 - 1)
  let vU := scanWhile rows cols g sym (fun r _ => decide (0 ≤ r)) (-1) 0 fuel (r0 - 1) c0
  let vD := scanWhile rows cols g sym (fun r _ => decide (r < (rows : Int))) 1 0 fuel (r0 + 1) c0
  let counterH := 1 + hL.1 + hR.1
  let counterB := 1 + dUL.1 + dDR.1
  let counterS := 1 + dUR.1 + dDL.1
  let counterV := 1 + vU.1 + vD.1
  (decide (4 ≤ counterH) || decide (4 ≤ counterB) || decide (4 ≤ counterS) || decide (4 ≤ counterV),
   hL.2 ++ hR.2 ++ dUL.2 ++ dDR.2 ++ dUR.2 ++ dDL.2 ++ vU.2 ++ vD.2)

/-- A `for x in range(1, 4)` run check of the opponent sweep, walking from
the occupied cell `(r, c)` in direction `(dr, dc)`; `bound` is the loop's
guard on the target coordinate and the first argument the remaining
iterations (started at 3, `x` at 1). -/
def runCountGo (rows cols : Nat) (g : Grid) (sym : Char) (bound : Int → Int → Bool)
    (r c : Nat) (dr dc : Int) : Nat → Nat → Nat × List (Int × Int)
  | 0, _ => (0, [])
  | fuel + 1, x =>
    let tr : Int := (r : Int) + (x : Int) * dr
    let tc : Int := (c : Int) + (x : Int) * dc
    if bound tr tc then
      if pyCell rows cols g tr tc = sym then
        let p := runCountGo rows cols g sym bound r c dr dc fuel (x + 1)
        (p.1 + 1, (tr, tc) :: p.2)
      else (0, [(tr, tc)])
    else (0, [])

/-- See `runCountGo`. -/
def runCount (rows cols : Nat) (g : Grid) (sym : Char) (bound : Int → Int → Bool)
    (r c : Nat) (dr dc : Int) : Nat × List (Int × Int) :=
  runCountGo rows cols g sym bound r c dr dc 3 1

/-- One cell visit of the opponent sweep (lines 440-502): the cell itself is
read; if it holds the opponent's symbol the four positive-direction runs are
checked in order, each `break`ing out as soon as it reaches 4 (skipping the
later runs' reads). -/
def visitCell (rows cols : Nat) (g : Grid) (sym : Char) (r c : Nat) :
    Bool × List (Int × Int) :=
  let first : List (Int × Int) := [((r : Int), (c : Int))]
  if getCell g r c = sym then
    let hC := runCount rows cols g sym (fun _ tc => decide (tc < (cols : Int))) r c 0 1
    if 4 ≤ 1 + hC.1 then (true, first ++ hC.2)
    else
      let vC := runCount rows cols g sym (fun tr _ => decide (tr < (rows : Int))) r c 1 0
      if 4 ≤ 1 + vC.1 then (true, first ++ hC.2 ++ vC.2)
      else
        let brC := runCount rows cols g sym
          (fun tr tc => decide (tr < (rows : Int)) && decide (tc < (cols : Int))) r c 1 1
        if 4 ≤ 1 + brC.1 then (true, first ++ hC.2 ++ vC.2 ++ brC.2)
        else
          let blC := runCount rows cols g sym
            (fun tr tc => decide (tr < (rows : Int)) && decide (0 ≤ tc)) r c 1 (-1)
          if 4 ≤ 1 + blC.1 then (true, first ++ hC.2 ++ vC.2 ++ brC.2 ++ blC.2)
          else (false, first ++ hC.2 ++ vC.2 ++ brC.2 ++ blC.2)
  else (false, first)

/-- The cells of the sweep's double loop in visiting order (rows outer). -/
def cellSeq (rows cols : Nat) : List (Nat × Nat) :=
  ((List.range rows).map (fun r => (List.range cols).map (fun c => (r, c)))).flatten

/-- The sweep over a list of cells, stopping at the first winning cell (the
`break`s of lines 455-504 leave both loops once `otherplayer_wins` is set). -/
def sweepCells (rows cols : Nat) (g : Grid) (sym : Char) :
    List (Nat × Nat) → Bool × List (Int × Int)
  | [] => (false, [])
  | rc :: rest =>
    let v := visitCell rows cols g sym rc.1 rc.2
    if v.1 then (true, v.2)
    else
      let s := sweepCells rows cols g sym rest
      (s.1, v.2 ++ s.2)

/-- The opponent's full-board sweep (lines 437-504). -/
def boardScan (rows cols : Nat) (g : Grid) (sym : Char) : Bool × List (Int × Int) :=
  sweepCells rows cols g sym (cellSeq rows cols)

/-! ### Outcome resolution (`Game.begin`, lines 506-542) -/

/-- Whose name the terminal message carries. -/
inductive Who where
  | mover
  | opponent
deriving DecidableEq, Repr

/-- The terminal state the turn reaches, or `proceed` when play goes on. -/
inductive Outcome where
  | draw
  | winAnnounced (w : Who)
  | proceed
deriving DecidableEq, Repr

/-- The `elif` chain of lines 506-542.  Both win branches print
`f"{self.current_player.name} wins!"`, so both announce the mover. -/
def resolveOutcome (cw ow boardFull noPieces : Bool) : Outcome :=
  if cw && ow then .draw
  else if cw then .winAnnounced .mover
  else if ow then .winAnnounced .mover
  else if boardFull || noPieces then .draw
  else .proceed

/-- Lines 525-531: the board is full exactly when no slot is blank. -/
def boardIsFull (g : Grid) : Bool :=
  g.all (fun col => col.all (fun s => s != blank))

/-! ### Counting occupied cells -/

/-- Number of occupied cells in one column. -/
def colOcc (col : List Char) : Nat := col.countP (fun ch => ch != blank)

/-- Number of occupied cells on the board. -/
def occCount (g : Grid) : Nat := (g.map colOcc).sum

/-! ## Lemmas: cell access -/

theorem getD_set_self {α : Type} (l : List α) (i : Nat) (v d : α) (h : i < l.length) :
    (l.set i v).getD i d = v := by
  simp [List.getD_eq_getElem?_getD, List.getElem?_set_eq_of_lt v h]

theorem getD_set_ne {α : Type} (l : List α) {i j : Nat} (v d : α) (h : i ≠ j) :
    (l.set i v).getD j d = l.getD j d := by
  simp [List.getD_eq_getElem?_getD, List.getElem?_set_ne h]

theorem getD_mem (g : Grid) (c : Nat) (h : c < g.length) : g.getD c [] ∈ g := by
  rw [List.getD_eq_getElem?_getD, List.getElem?_eq_getElem h]
  exact List.getElem_mem h

theorem getD_mem_of_lt {α : Type} (l : List α) (i : Nat) (d : α) (h : i < l.length) :
    l.getD i d ∈ l := by
  rw [List.getD_eq_getElem?_getD, List.getElem?_eq_getElem h]
  exact List.getElem_mem h

theorem getCell_setCell_ne_col (g : Grid) {c c' : Nat} (r r' : Nat) (v : Char)
    (h : c' ≠ c) : getCell (setCell g r c v) r' c' = getCell g r' c' := by
  unfold getCell setCell
  rw [getD_set_ne _ _ _ (fun hc => h hc.symm)]

theorem setCell_oob (g : Grid) (r c : Nat) (v : Char) (h : g.length ≤ c) :
    setCell g r c v = g := by
  unfold setCell; exact List.set_eq_of_length_le h

theorem getCell_setCell_ne_row (g : Grid) {r r' : Nat} (c c' : Nat) (v : Char)
    (h : r' ≠ r) : getCell (setCell g r c v) r' c' = getCell g r' c' := by
  by_cases hc : c' = c
  · subst hc
    by_cases hlen : c' < g.length
    · unfold getCell setCell
      rw [getD_set_self _ _ _ _ hlen, getD_set_ne _ _ _ (fun hr => h hr.symm)]
    · rw [setCell_oob _ _ _ _ (Nat.le_of_not_lt hlen)]
  · exact getCell_setCell_ne_col g r r' v hc

theorem getCell_setCell_self (g : Grid) (r c : Nat) (v : Char)
    (hc : c < g.length) (hr : r < (g.getD c []).length) :
    getCell (setCell g r c v) r c = v := by
  unfold getCell setCell
  rw [getD_set_self _ _ _ _ hc, getD_set_self _ _ _ _ hr]

theorem length_setCell (g : Grid) (r c : Nat) (v : Char) :
    (setCell g r c v).length = g.length := List.length_set ..

theorem rect_setCell {rows cols : Nat} {g : Grid} (r c : Nat) (v : Char)
    (h : Rect rows cols g) : Rect rows cols (setCell g r c v) := by
  by_cases hlen : c < g.length
  · refine ⟨by rw [length_setCell]; exact h.1, ?_⟩
    intro col hcol
    rcases List.mem_or_eq_of_mem_set hcol with hin | heq
    · exact h.2 col hin
    · rw [heq, List.length_set]
      exact h.2 _ (getD_mem g c hlen)
  · rw [setCell_oob _ _ _ _ (Nat.le_of_not_lt hlen)]; exact h

theorem rect_getCell_col_length {rows cols : Nat} {g : Grid} (h : Rect rows cols g)
    {c : Nat} (hc : c < cols) : (g.getD c []).length = rows :=
  h.2 _ (getD_mem g c (by rw [h.1]; exact hc))

/-! ## Lemmas: gravity -/

theorem fallPass_perm (l : List Char) : ∀ below, (fallPass below l).1.Perm (below :: l) := by
  induction l with
  | nil => intro below; simp [fallPass]
  | cons x rest ih =>
    intro below
    by_cases h : x ≠ blank ∧ below = blank
    · rw [fallPass, if_pos h]
      rcases h with ⟨_, hb⟩
      subst hb
      exact ((ih blank).cons x).trans (List.Perm.swap _ _ _)
    · rw [fallPass, if_neg h]
      exact (ih x).cons below

theorem fallPass_length (l : List Char) (below : Char) :
    (fallPass below l).1.length = l.length + 1 :=
  ((fallPass_perm l below).length_eq).trans rfl

theorem fallPass_of_not_moved (l : List Char) : ∀ below,
    (fallPass below l).2 = false → (fallPass below l).1 = below :: l := by
  induction l with
  | nil => intro below _; simp [fallPass]
  | cons x rest ih =>
    intro below hmv
    by_cases h : x ≠ blank ∧ below = blank
    · rw [fallPass, if_pos h] at hmv; simp at hmv
    · rw [fallPass, if_neg h] at hmv ⊢
      simp only at hmv ⊢
      rw [ih x hmv]

theorem fallPass_chain_of_not_moved (l : List Char) : ∀ below,
    (fallPass below l).2 = false →
    List.Chain' (fun a b => a = blank → b = blank) (below :: l) := by
  induction l with
  | nil => intro below _; simp
  | cons x rest ih =>
    intro below hmv
    by_cases h : x ≠ blank ∧ below = blank
    · rw [fallPass, if_pos h] at hmv; simp at hmv
    · rw [fallPass, if_neg h] at hmv
      simp only at hmv
      rw [List.chain'_cons]
      refine ⟨?_, ih x hmv⟩
      intro hb
      by_contra hx
      exact h ⟨hx, hb⟩

theorem fallPass_measure (l : List Char) : ∀ below b,
    mcol b (fallPass below l).1 ≤ mcol b (below :: l) ∧
      ((fallPass below l).2 = true → mcol b (fallPass below l).1 < mcol b (below :: l)) := by
  induction l with
  | nil =>
    intro below b
    constructor
    · exact le_refl _
    · intro h; simp [fallPass] at h
  | cons x rest ih =>
    intro below b
    by_cases h : x ≠ blank ∧ below = blank
    · rw [fallPass, if_pos h]
      rcases h with ⟨hx, hb⟩
      subst hb
      have key : mcol b (x :: (fallPass blank rest).1) < mcol b (blank :: x :: rest) := by
        have h1 : mcol b (x :: (fallPass blank rest).1) = b + mcol b (fallPass blank rest).1 := by
          rw [mcol, if_neg hx]
        have h2 : mcol b (blank :: x :: rest) = (b + 1) + mcol (b + 1) rest := by
          rw [mcol, if_pos rfl, mcol, if_neg hx]
        have h3 : mcol b (fallPass blank rest).1 ≤ mcol (b + 1) rest := by
          have := (ih blank b).1
          rwa [show mcol b (blank :: rest) = mcol (b + 1) rest by rw [mcol, if_pos rfl]] at this
        omega
      exact ⟨le_of_lt key, fun _ => key⟩
    · rw [fallPass, if_neg h]
      simp only
      by_cases hb : below = blank
      · subst hb
        have hx : x = blank := by
          by_contra hx
          exact h ⟨hx, rfl⟩
        subst hx
        have h1 : mcol b (blank :: (fallPass blank rest).1) = mcol (b + 1) (fallPass blank rest).1 := by
          rw [mcol, if_pos rfl]
        have h2 : mcol b (blank :: blank :: rest) = mcol (b + 1) (blank :: rest) := by
          rw [mcol, if_pos rfl]
        rw [h1, h2]
        exact ih blank (b + 1)
      · have h1 : mcol b (below :: (fallPass x rest).1) = b + mcol b (fallPass x rest).1 := by
          rw [mcol, if_neg hb]
        have h2 : mcol b (below :: x :: rest) = b + mcol b (x :: rest) := by
          rw [mcol, if_neg hb]
        rw [h1, h2]
        have := ih x b
        exact ⟨by omega, fun hm => by have := this.2 hm; omega⟩

theorem colPass_perm (col : List Char) : (colPass col).1.Perm col := by
  unfold colPass
  cases hrev : col.reverse with
  | nil =>
    simp only
    have : col = [] := by
      have := congrArg List.reverse hrev
      simpa using this
    simp [this]
  | cons b rest =>
    simp only
    have h1 : (fallPass b rest).1.reverse.Perm (fallPass b rest).1 := List.reverse_perm _
    have h2 : (fallPass b rest).1.Perm (b :: rest) := fallPass_perm rest b
    have h3 : (b :: rest).Perm col := by
      rw [← hrev]; exact List.reverse_perm col
    exact (h1.trans h2).trans h3

theorem colPass_measure_le (col : List Char) : colMeasure (colPass col).1 ≤ colMeasure col := by
  unfold colPass colMeasure
  cases hrev : col.reverse with
  | nil => simp
  | cons b rest =>
    simp only [List.reverse_reverse]
    exact (fallPass_measure rest b 0).1

theorem colPass_measure_lt (col : List Char) (h : (colPass col).2 = true) :
    colMeasure (colPass col).1 < colMeasure col := by
  unfold colPass colMeasure
  unfold colPass at h
  cases hrev : col.reverse with
  | nil => rw [hrev] at h; simp at h
  | cons b rest =>
    rw [hrev] at h
    simp only at h ⊢
    simp only [List.reverse_reverse]
    exact (fallPass_measure rest b 0).2 h

theorem colPass_of_not_moved (col : List Char) (h : (colPass col).2 = false) :
    (colPass col).1 = col := by
  unfold colPass at h ⊢
  cases hrev : col.reverse with
  | nil =>
    simp only
    have : col = [] := by simpa using congrArg List.reverse hrev
    simp [this]
  | cons b rest =>
    rw [hrev] at h
    simp only at h ⊢
    rw [fallPass_of_not_moved rest b h, ← hrev, List.reverse_reverse]

theorem settledCol_of_chain (col : List Char)
    (h : List.Chain' (fun a b => a = blank → b = blank) col.reverse) : SettledCol col := by
  intro r hr hblank
  rw [List.chain'_iff_get] at h
  have hlen : col.reverse.length = col.length := List.length_reverse col
  have hi : col.length - 2 - r < col.reverse.length - 1 := by omega
  have := h (col.length - 2 - r) hi
  have hg1 : col.reverse.get ⟨col.length - 2 - r, by omega⟩ = col.getD (r + 1) blank := by
    rw [List.get_eq_getElem, List.getElem_reverse]
    rw [List.getD_eq_getElem?_getD, List.getElem?_eq_getElem (by omega)]
    simp only [Option.getD_some]
    congr 1
    omega
  have hg2 : col.reverse.get ⟨col.length - 2 - r + 1, by omega⟩ = col.getD r blank := by
    rw [List.get_eq_getElem, List.getElem_reverse]
    rw [List.getD_eq_getElem?_getD, List.getElem?_eq_getElem (by omega)]
    simp only [Option.getD_some]
    congr 1
    omega
  rw [hg1, hg2] at this
  exact this hblank

theorem colPass_settled_of_not_moved (col : List Char) (h : (colPass col).2 = false) :
    SettledCol col := by
  unfold colPass at h
  cases hrev : col.reverse with
  | nil =>
    intro r hr
    have : col = [] := by simpa using congrArg List.reverse hrev
    subst this
    simp at hr
  | cons b rest =>
    rw [hrev] at h
    simp only at h
    apply settledCol_of_chain
    rw [hrev]
    exact fallPass_chain_of_not_moved rest b h

theorem sum_map_le {α : Type} (l : List α) (f h : α → Nat)
    (hle : ∀ a ∈ l, f a ≤ h a) : (l.map f).sum ≤ (l.map h).sum := by
  induction l with
  | nil => simp
  | cons a t ih =>
    simp only [List.map_cons, List.sum_cons]
    have h1 := hle a (List.mem_cons_self a t)
    have h2 := ih (fun x hx => hle x (List.mem_cons_of_mem a hx))
    omega

theorem sum_map_lt {α : Type} (l : List α) (f h : α → Nat)
    (hle : ∀ a ∈ l, f a ≤ h a) (hlt : ∃ a ∈ l, f a < h a) :
    (l.map f).sum < (l.map h).sum := by
  induction l with
  | nil => simp at hlt
  | cons a t ih =>
    simp only [List.map_cons, List.sum_cons]
    have h1 := hle a (List.mem_cons_self a t)
    rcases hlt with ⟨x, hx, hxlt⟩
    rcases List.mem_cons.mp hx with hxa | hxt
    · subst hxa
      have := sum_map_le t f h (fun y hy => hle y (List.mem_cons_of_mem _ hy))
      omega
    · have := ih (fun y hy => hle y (List.mem_cons_of_mem a hy)) ⟨x, hxt, hxlt⟩
      omega

theorem sweepGrid_measure_le (g : Grid) : gridMeasure (sweepGrid g).1 ≤ gridMeasure g := by
  unfold gridMeasure sweepGrid
  simp only [List.map_map]
  exact sum_map_le g _ _ (fun col _ => colPass_measure_le col)

theorem sweepGrid_measure_lt (g : Grid) (h : (sweepGrid g).2 = true) :
    gridMeasure (sweepGrid g).1 < gridMeasure g := by
  unfold gridMeasure sweepGrid
  simp only [List.map_map]
  unfold sweepGrid at h
  simp only [List.any_eq_true] at h
  rcases h with ⟨col, hcol, hflag⟩
  exact sum_map_lt g _ _ (fun c _ => colPass_measure_le c) ⟨col, hcol, colPass_measure_lt col hflag⟩

theorem sweepGrid_of_not_moved (g : Grid) (h : (sweepGrid g).2 = false) :
    (sweepGrid g).1 = g ∧ SettledGrid g := by
  unfold sweepGrid at h
  have hall : ∀ col ∈ g, (colPass col).2 = false := by
    intro col hcol
    by_contra hne
    have : g.any (fun col => (colPass col).2) = true :=
      List.any_eq_true.mpr ⟨col, hcol, by simpa using hne⟩
    simp only at h
    rw [this] at h
    exact Bool.true_eq_false.mp h
  constructor
  · unfold sweepGrid
    simp only
    have : ∀ col ∈ g, (colPass col).1 = col := fun col hcol =>
      colPass_of_not_moved col (hall col hcol)
    calc g.map (fun col => (colPass col).1) = g.map id := List.map_congr_left this
      _ = g := List.map_id g
  · intro col hcol
    exact colPass_settled_of_not_moved col (hall col hcol)

/-- C9: for every grid, the sweep loop reaches a pass that makes zero moves
after at most `gridMeasure g` flagged passes — the total height-above-support
of the occupied cells strictly decreases with every flagged pass and is
bounded below by zero. -/
theorem c9_gravity_terminates (g : Grid) :
    ∃ n, n ≤ gridMeasure g ∧ (sweepGrid (sweepIter n g)).2 = false := by
  generalize hm : gridMeasure g = m
  induction m using Nat.strong_induction_on generalizing g with
  | _ m ih =>
    by_cases hflag : (sweepGrid g).2 = true
    · have hlt := sweepGrid_measure_lt g hflag
      rw [hm] at hlt
      obtain ⟨n, hn, hfix⟩ := ih (gridMeasure (sweepGrid g).1) hlt (sweepGrid g).1 rfl
      refine ⟨n + 1, by omega, ?_⟩
      show (sweepGrid (sweepIter (n + 1) g)).2 = false
      rw [sweepIter]
      exact hfix
    · exact ⟨0, Nat.zero_le _, by simpa using hflag⟩

theorem normGo_settled : ∀ (fuel : Nat) (g : Grid), gridMeasure g < fuel →
    SettledGrid (normGo fuel g) := by
  intro fuel
  induction fuel with
  | zero => intro g h; omega
  | succ f ih =>
    intro g h
    show SettledGrid (if (sweepGrid g).2 then normGo f (sweepGrid g).1 else (sweepGrid g).1)
    by_cases hflag : (sweepGrid g).2 = true
    · rw [if_pos hflag]
      exact ih _ (by have := sweepGrid_measure_lt g hflag; omega)
    · rw [if_neg hflag]
      obtain ⟨heq, hs⟩ := sweepGrid_of_not_moved g (by simpa using hflag)
      rw [heq]
      exact hs

theorem normalize_settled (g : Grid) : SettledGrid (normalize g) :=
  normGo_settled _ g (Nat.lt_succ_self _)

theorem colPass_colOcc (col : List Char) : colOcc (colPass col).1 = colOcc col :=
  List.Perm.countP_eq _ (colPass_perm col)

theorem sweepGrid_occCount (g : Grid) : occCount (sweepGrid g).1 = occCount g := by
  unfold occCount sweepGrid
  simp only [List.map_map]
  congr 1
  calc g.map (colOcc ∘ fun col => (colPass col).1)
      = g.map colOcc := List.map_congr_left (fun col _ => colPass_colOcc col)

theorem normGo_occCount : ∀ (fuel : Nat) (g : Grid), occCount (normGo fuel g) = occCount g := by
  intro fuel
  induction fuel with
  | zero => intro g; rfl
  | succ f ih =>
    intro g
    show occCount (if (sweepGrid g).2 then normGo f (sweepGrid g).1 else (sweepGrid g).1) =
      occCount g
    by_cases hflag : (sweepGrid g).2 = true
    · rw [if_pos hflag, ih]
      exact sweepGrid_occCount g
    · rw [if_neg hflag]
      exact sweepGrid_occCount g

theorem normalize_occCount (g : Grid) : occCount (normalize g) = occCount g :=
  normGo_occCount _ g

/-! ## Lemmas: standard insertion -/

theorem findLowestBlankGo_some {g : Grid} {c : Nat} : ∀ {k r : Nat},
    findLowestBlankGo g c k = some r →
    r < k ∧ getCell g r c = blank ∧ ∀ q, r < q → q < k → getCell g q c ≠ blank := by
  intro k
  induction k with
  | zero => intro r h; simp [findLowestBlankGo] at h
  | succ j ih =>
    intro r h
    rw [findLowestBlankGo] at h
    by_cases hb : getCell g j c = blank
    · rw [if_pos hb] at h
      injection h with h
      subst h
      exact ⟨Nat.lt_succ_self _, hb, fun q hq1 hq2 => by omega⟩
    · rw [if_neg hb] at h
      obtain ⟨h1, h2, h3⟩ := ih h
      refine ⟨by omega, h2, ?_⟩
      intro q hq1 hq2
      by_cases hqj : q = j
      · subst hqj; exact hb
      · exact h3 q hq1 (by omega)

theorem findLowestBlankGo_isSome {g : Grid} {c : Nat} : ∀ {k r : Nat}, r < k →
    getCell g r c = blank → ∃ s, findLowestBlankGo g c k = some s := by
  intro k
  induction k with
  | zero => intro r h; omega
  | succ j ih =>
    intro r hr hb
    rw [findLowestBlankGo]
    by_cases hbj : getCell g j c = blank
    · exact ⟨j, by rw [if_pos hbj]⟩
    · rw [if_neg hbj]
      have hrj : r < j := by
        rcases Nat.lt_succ_iff_lt_or_eq.mp hr with h | h
        · exact h
        · subst h; exact absurd hb hbj
      exact ih hrj hb

theorem standardInsert_eq {rows cols : Nat} {sym : Char} {g : Grid} {column : Int}
    {g1 : Grid} {r : Nat} (h : standardInsert rows cols sym g column = some (g1, r)) :
    0 ≤ column - 1 ∧ column - 1 < (cols : Int) ∧
    g1 = setCell g r (column - 1).toNat sym ∧ r < rows ∧
    getCell g r (column - 1).toNat = blank ∧
    (∀ q, r < q → q < rows → getCell g q (column - 1).toNat ≠ blank) := by
  simp only [standardInsert] at h
  split at h
  case isTrue hc =>
    cases hfind : findLowestBlank rows g (column - 1).toNat with
    | none => rw [hfind] at h; exact absurd h (by simp)
    | some r2 =>
      rw [hfind] at h
      injection h with h
      rw [Prod.mk.injEq] at h
      obtain ⟨hg, hr⟩ := h
      subst hr
      obtain ⟨hb1, hb2, hb3⟩ := findLowestBlankGo_some hfind
      exact ⟨hc.1, hc.2, hg.symm, hb1, hb2, hb3⟩
  case isFalse hc => exact absurd h (by simp)

theorem settled_blank_up {col : List Char} (hs : SettledCol col) :
    ∀ j, j < col.length → col.getD j blank = blank →
      ∀ i ≤ j, col.getD i blank = blank := by
  intro j
  induction j with
  | zero =>
    intro _ hb i hi
    rw [Nat.le_zero.mp hi]
    exact hb
  | succ j ih =>
    intro hj hb i hi
    by_cases hij : i = j + 1
    · subst hij; exact hb
    · have hj2 : col.getD j blank = blank := hs j (by omega) hb
      exact ih (by omega) hj2 i (by omega)

theorem settledCol_set {col : List Char} {r : Nat} (sym : Char)
    (hs : SettledCol col) (hb : col.getD r blank = blank) (hr : r < col.length)
    (habove : ∀ q, r < q → q < col.length → col.getD q blank ≠ blank) :
    SettledCol (col.set r sym) := by
  intro rr hrr hblank
  rw [List.length_set] at hrr
  by_cases ha : rr = r
  · subst ha
    rw [getD_set_ne _ _ _ (by omega)] at hblank
    exact absurd hblank (habove (rr + 1) (by omega) (by omega))
  · rw [getD_set_ne _ _ _ (fun he => ha he.symm)]
    by_cases hb1 : rr + 1 = r
    · rw [← hb1] at hb
      exact settled_blank_up hs (rr + 1) (by omega) hb rr (by omega)
    · rw [getD_set_ne _ _ _ (fun he => hb1 he.symm)] at hblank
      exact hs rr hrr hblank

theorem settledGrid_standardInsert {rows cols : Nat} {sym : Char} {g g1 : Grid}
    {column : Int} {r : Nat} (hrect : Rect rows cols g) (hset : SettledGrid g)
    (h : standardInsert rows cols sym g column = some (g1, r)) : SettledGrid g1 := by
  obtain ⟨hc0, hclt, heq, hrlt, hblank, _⟩ := standardInsert_eq h
  obtain ⟨_, _, _, _, _, habove⟩ := standardInsert_eq h
  subst heq
  intro col hcol
  rcases List.mem_or_eq_of_mem_set hcol with hin | hnew
  · exact hset col hin
  · subst hnew
    have hc0lt : (column - 1).toNat < cols := by omega
    have hc0len : (column - 1).toNat < g.length := by rw [hrect.1]; exact hc0lt
    have hcollen : (g.getD (column - 1).toNat []).length = rows :=
      hrect.2 _ (getD_mem g _ hc0len)
    refine settledCol_set sym (hset _ (getD_mem g _ hc0len)) hblank ?_ ?_
    · rw [hcollen]; exact hrlt
    · intro q hq1 hq2
      rw [hcollen] at hq2
      exact habove q hq1 hq2

/-- C7: starting from a rectangular board satisfying the no-floating
invariant, the board that any piece variant's placement operation hands back
to the turn loop satisfies the invariant again, whether or not the placement
succeeded: a standard insertion writes at the lowest empty row, and the bomb
and teleport insertions are wrapped in the gravity decorator. -/
theorem c7_placement_settles (rows cols : Nat) (p : PieceT) (g : Grid) (column : Int)
    (hrect : Rect rows cols g) (hset : SettledGrid g) :
    SettledGrid (placePiece rows cols p g column).1 := by
  cases p with
  | standard s =>
    show SettledGrid (match standardInsert rows cols s g column with
      | some (g2, _) => (g2, true)
      | none => (g, false)).1
    cases hins : standardInsert rows cols s g column with
    | none => exact hset
    | some gr =>
      obtain ⟨g1, r⟩ := gr
      exact settledGrid_standardInsert hrect hset hins
  | bomb =>
    show SettledGrid (normalize (bombCore rows cols g column).1)
    exact normalize_settled _
  | teleport =>
    show SettledGrid (normalize (teleportCore rows cols g column).1)
    exact normalize_settled _

/-- Witness for C7: a bomb dropped into column 1 of a settled 2×2 board. -/
theorem c7_witness :
    Rect 2 2 [[blank, 'X'], [blank, blank]] ∧
    SettledGrid [[blank, 'X'], [blank, blank]] ∧
    SettledGrid (placePiece 2 2 PieceT.bomb [[blank, 'X'], [blank, blank]] 1).1 :=
  ⟨by decide, by decide,
    c7_placement_settles 2 2 PieceT.bomb [[blank, 'X'], [blank, blank]] 1
      (by decide) (by decide)⟩

/-! ## Lemmas: re-finding the landed row, bomb clearing -/

theorem getCell_oob_row {rows cols : Nat} {g : Grid} (hrect : Rect rows cols g)
    {q : Nat} (c : Nat) (hq : rows ≤ q) : getCell g q c = blank := by
  unfold getCell
  by_cases hc : c < g.length
  · exact List.getD_eq_default _ _ (by rw [hrect.2 _ (getD_mem g c hc)]; exact hq)
  · rw [List.getD_eq_default g [] (Nat.le_of_not_lt hc), List.getD_nil]

theorem noSym_getCell {g : Grid} {sym : Char} (h : NoSym g sym) (hs : sym ≠ blank)
    (r c : Nat) : getCell g r c ≠ sym := by
  unfold getCell
  by_cases hc : c < g.length
  · by_cases hr : r < (g.getD c []).length
    · exact h _ (getD_mem g c hc) _ (getD_mem_of_lt _ r blank hr)
    · rw [List.getD_eq_default _ _ (Nat.le_of_not_lt hr)]
      exact fun he => hs he.symm
  · rw [List.getD_eq_default g [] (Nat.le_of_not_lt hc), List.getD_nil]
    exact fun he => hs he.symm

theorem findSymRowBottomGo_eq {g : Grid} {c : Nat} {sym : Char} {r : Nat}
    (hmatch : getCell g r c = sym)
    (habove : ∀ q, r < q → getCell g q c ≠ sym) :
    ∀ k, r < k → findSymRowBottomGo g c sym k = (r : Int) := by
  intro k
  induction k with
  | zero => omega
  | succ j ih =>
    intro hrk
    rw [findSymRowBottomGo]
    by_cases hj : getCell g j c = sym
    · have hjr : j = r := by
        by_contra hne
        exact habove j (by omega) hj
      rw [if_pos hj, hjr]
    · have hrj : r < j := by
        by_cases hjr : j = r
        · subst hjr; exact absurd hmatch hj
        · omega
      rw [if_neg hj]
      exact ih hrj

theorem findSymRowBottomGo_found {g : Grid} {c : Nat} {sym : Char} :
    ∀ k, (∃ r, r < k ∧ getCell g r c = sym) →
    0 ≤ findSymRowBottomGo g c sym k ∧ findSymRowBottomGo g c sym k < (k : Int) ∧
      getCell g (findSymRowBottomGo g c sym k).toNat c = sym := by
  intro k
  induction k with
  | zero => rintro ⟨r, hr, _⟩; omega
  | succ j ih =>
    rintro ⟨r, hr, hmatch⟩
    rw [findSymRowBottomGo]
    by_cases hj : getCell g j c = sym
    · rw [if_pos hj]
      refine ⟨by omega, by omega, ?_⟩
      simpa using hj
    · rw [if_neg hj]
      have hrj : r < j := by
        by_cases hjr : r = j
        · subst hjr; exact absurd hmatch hj
        · omega
      obtain ⟨h1, h2, h3⟩ := ih ⟨r, hrj, hmatch⟩
      exact ⟨h1, by omega, h3⟩

theorem clearCells_getCell {rows cols : Nat} {r1 c1 : Nat}
    (hr1 : r1 < rows) (hc1 : c1 < cols) :
    ∀ (ts : List (Int × Int)) (g : Grid), Rect rows cols g →
    getCell (clearCells rows cols g ts) r1 c1 =
      if ∃ t ∈ ts, t.1 = (r1 : Int) ∧ t.2 = (c1 : Int) then blank
      else getCell g r1 c1 := by
  intro ts
  induction ts with
  | nil => intro g _; simp [clearCells]
  | cons t rest ih =>
    intro g hrect
    show getCell (clearCells rows cols
        (if 0 ≤ t.1 ∧ t.1 < (rows : Int) ∧ 0 ≤ t.2 ∧ t.2 < (cols : Int) then
          setCell g t.1.toNat t.2.toNat blank else g) rest) r1 c1 = _
    set g2 := (if 0 ≤ t.1 ∧ t.1 < (rows : Int) ∧ 0 ≤ t.2 ∧ t.2 < (cols : Int) then
      setCell g t.1.toNat t.2.toNat blank else g) with hg2
    have hrect2 : Rect rows cols g2 := by
      rw [hg2]
      split
      · exact rect_setCell _ _ _ hrect
      · exact hrect
    rw [ih g2 hrect2]
    by_cases hrest : ∃ t2 ∈ rest, t2.1 = (r1 : Int) ∧ t2.2 = (c1 : Int)
    · rw [if_pos hrest, if_pos ?_]
      exact ⟨_, List.mem_cons_of_mem t hrest.choose_spec.1, hrest.choose_spec.2⟩
    · rw [if_neg hrest]
      by_cases hhit : t.1 = (r1 : Int) ∧ t.2 = (c1 : Int)
      · have hin : 0 ≤ t.1 ∧ t.1 < (rows : Int) ∧ 0 ≤ t.2 ∧ t.2 < (cols : Int) := by
          obtain ⟨e1, e2⟩ := hhit
          rw [e1, e2]
          refine ⟨by omega, by omega, by omega, by omega⟩
        rw [hg2, if_pos hin]
        have ht1 : t.1.toNat = r1 := by omega
        have ht2 : t.2.toNat = c1 := by omega
        rw [ht1, ht2]
        rw [if_pos ⟨t, List.mem_cons_self t rest, hhit⟩]
        refine getCell_setCell_self g r1 c1 blank ?_ ?_
        · rw [hrect.1]; exact hc1
        · rw [hrect.2 _ (getD_mem g c1 (by rw [hrect.1]; exact hc1))]; exact hr1
      · rw [if_neg ?_]
        · rw [hg2]
          split
          · rcases Decidable.not_and_iff_or_not.mp hhit with hne | hne
            · refine getCell_setCell_ne_row _ _ _ _ (fun he => hne ?_)
              omega
            · refine getCell_setCell_ne_col _ _ _ _ (fun he => hne ?_)
              omega
          · rfl
        · rintro ⟨t2, ht2, he⟩
          rcases List.mem_cons.mp ht2 with rfl | hmem
          · exact hhit he
          · exact hrest ⟨t2, hmem, he⟩

theorem mem_clearTargets_iff {fr : Int} {c0 : Nat} {r1 c1 : Nat} :
    (∃ t ∈ clearTargets fr c0, t.1 = (r1 : Int) ∧ t.2 = (c1 : Int)) ↔
      ((r1 : Int) ≤ fr + 1 ∧ fr ≤ (r1 : Int) + 1 ∧
        (c1 : Int) ≤ (c0 : Int) + 1 ∧ (c0 : Int) ≤ (c1 : Int) + 1) := by
  constructor
  · rintro ⟨t, ht, e1, e2⟩
    simp only [clearTargets, List.mem_map, List.mem_cons, List.mem_singleton,
      List.not_mem_nil, or_false] at ht
    obtain ⟨d, hd, rfl⟩ := ht
    simp only at e1 e2
    rcases hd with rfl | rfl | rfl | rfl | rfl | rfl | rfl | rfl | rfl <;>
      simp only at e1 e2 <;> omega
  · rintro ⟨h1, h2, h3, h4⟩
    refine ⟨((r1 : Int), (c1 : Int)), ?_, rfl, rfl⟩
    simp only [clearTargets, List.mem_map, List.mem_cons, List.mem_singleton,
      List.not_mem_nil, or_false]
    refine ⟨((r1 : Int) - fr, (c1 : Int) - (c0 : Int)), ?_, ?_⟩
    · have hdr : (r1 : Int) - fr = -1 ∨ (r1 : Int) - fr = 0 ∨ (r1 : Int) - fr = 1 := by omega
      have hdc : (c1 : Int) - (c0 : Int) = -1 ∨ (c1 : Int) - (c0 : Int) = 0 ∨
        (c1 : Int) - (c0 : Int) = 1 := by omega
      rcases hdr with h | h | h <;> rcases hdc with h5 | h5 | h5 <;> rw [h, h5] <;> simp
    · simp only [Prod.mk.injEq]
      constructor <;> omega

/-- C4 (amended): on a rectangular board carrying no `B` cell, a successful
bomb placement landing at row `r` of 1-based column `column` clears exactly
the in-bounds cells within Chebyshev distance 1 of the landing coordinate
(every other cell keeps the value it had right after the underlying standard
insertion), and the decorated placement then applies gravity to the whole
grid. -/
theorem c4_bomb_clears {rows cols : Nat} {g g1 : Grid} {column : Int} {r : Nat}
    (hrect : Rect rows cols g) (hnob : NoSym g 'B')
    (hins : standardInsert rows cols 'B' g column = some (g1, r)) :
    (bombCore rows cols g column).2 = true ∧
    (∀ r1 c1, r1 < rows → c1 < cols →
      getCell (bombCore rows cols g column).1 r1 c1 =
        if r1 ≤ r + 1 ∧ r ≤ r1 + 1 ∧
            c1 ≤ (column - 1).toNat + 1 ∧ (column - 1).toNat ≤ c1 + 1 then blank
        else getCell g1 r1 c1) ∧
    bombPlace rows cols g column = (normalize (bombCore rows cols g column).1, true) := by
  obtain ⟨hc0, hclt, heq, hrlt, hblankat, _⟩ := standardInsert_eq hins
  have hcore : bombCore rows cols g column =
      (clearCells rows cols g1 (clearTargets
        (findSymRowBottomI rows g1 (column - 1).toNat 'B') (column - 1).toNat), true) := by
    unfold bombCore
    rw [hins]
  have hrect1 : Rect rows cols g1 := by rw [heq]; exact rect_setCell _ _ _ hrect
  have hc0cols : (column - 1).toNat < cols := by omega
  have hmatch : getCell g1 r (column - 1).toNat = 'B' := by
    rw [heq]
    refine getCell_setCell_self g r _ 'B' ?_ ?_
    · rw [hrect.1]; exact hc0cols
    · rw [hrect.2 _ (getD_mem g _ (by rw [hrect.1]; exact hc0cols))]; exact hrlt
  have habove : ∀ q, r < q → getCell g1 q (column - 1).toNat ≠ 'B' := by
    intro q hq
    rw [heq, getCell_setCell_ne_row _ _ _ _ (by omega)]
    by_cases hqr : q < rows
    · exact noSym_getCell hnob (by decide) q _
    · rw [getCell_oob_row hrect _ (Nat.le_of_not_lt hqr)]
      decide
  have hfr : findSymRowBottomI rows g1 (column - 1).toNat 'B' = (r : Int) :=
    findSymRowBottomGo_eq hmatch habove rows hrlt
  refine ⟨by rw [hcore], ?_, ?_⟩
  · intro r1 c1 hr1 hc1
    rw [hcore]
    simp only
    rw [clearCells_getCell hr1 hc1 _ _ hrect1, hfr]
    by_cases hcheb : r1 ≤ r + 1 ∧ r ≤ r1 + 1 ∧
        c1 ≤ (column - 1).toNat + 1 ∧ (column - 1).toNat ≤ c1 + 1
    · rw [if_pos hcheb, if_pos (mem_clearTargets_iff.mpr (by omega))]
    · rw [if_neg hcheb, if_neg ?_]
      intro hmem
      have := mem_clearTargets_iff.mp hmem
      exact hcheb (by omega)
  · show (normalize (bombCore rows cols g column).1, (bombCore rows cols g column).2) = _
    rw [hcore]

/-- Witness for C4: a bomb dropped into the single column of an empty 2×1
board. -/
theorem c4_witness :
    Rect 2 1 [[blank, blank]] ∧ NoSym [[blank, blank]] 'B' ∧
    standardInsert 2 1 'B' [[blank, blank]] 1 = some ([[blank, 'B']], 1) ∧
    ((bombCore 2 1 [[blank, blank]] 1).2 = true ∧
      (∀ r1 c1, r1 < 2 → c1 < 1 →
        getCell (bombCore 2 1 [[blank, blank]] 1).1 r1 c1 =
          if r1 ≤ 1 + 1 ∧ 1 ≤ r1 + 1 ∧
              c1 ≤ ((1 : Int) - 1).toNat + 1 ∧ ((1 : Int) - 1).toNat ≤ c1 + 1 then blank
          else getCell [[blank, 'B']] r1 c1) ∧
      bombPlace 2 1 [[blank, blank]] 1 =
        (normalize (bombCore 2 1 [[blank, blank]] 1).1, true)) :=
  ⟨by decide, by decide, by decide,
    c4_bomb_clears (by decide) (by decide) (by decide)⟩

/-- Counterexample for C4 as stated over every board: on a 5×1 board already
holding a `B` at the bottom, the bomb inserted into column 1 lands at row 1,
but the clearing step re-finds the lowest `B` (row 4) and clears around it:
the cell (3,0), at Chebyshev distance 2 from the landing coordinate, is
cleared, while the cell (2,0), at Chebyshev distance 1, is not. -/
theorem c4_counterexample :
    standardInsert 5 1 'B' [[blank, blank, 'X', 'X', 'B']] 1 =
      some ([[blank, 'B', 'X', 'X', 'B']], 1) ∧
    (bombCore 5 1 [[blank, blank, 'X', 'X', 'B']] 1).1 =
      [[blank, 'B', 'X', blank, blank]] ∧
    getCell (bombCore 5 1 [[blank, blank, 'X', 'X', 'B']] 1).1 2 0 = 'X' ∧
    getCell (bombCore 5 1 [[blank, blank, 'X', 'X', 'B']] 1).1 3 0 = blank ∧
    getCell [[blank, 'B', 'X', 'X', 'B']] 3 0 = 'X' := by
  refine ⟨by decide, by decide, by decide, by decide, by decide⟩

/-! ## Lemmas: teleport placement -/

theorem pyIdx_in_range {n : Nat} {i : Int} (h0 : 0 ≤ i) (hn : i < (n : Int)) :
    pyIdx n i = some i.toNat := by
  unfold pyIdx
  rw [if_pos h0, if_pos hn]

theorem pySetCell_in_range {rows : Nat} (g : Grid) {r : Int} (c : Nat) (v : Char)
    (h0 : 0 ≤ r) (hn : r < (rows : Int)) :
    pySetCell rows g r c v = setCell g r.toNat c v := by
  unfold pySetCell
  rw [pyIdx_in_range h0 hn]

theorem teleportPhase_eq_spec {rows cols : Nat} (g1 : Grid) {r c0 : Nat}
    (hr : r < rows) (hc : c0 < cols) :
    teleportPhase rows cols g1 (r : Int) c0 = swapSpecStep rows cols g1 r c0 := by
  simp only [teleportPhase, swapSpecStep]
  rw [pySetCell_in_range g1 c0 blank (by omega) (by omega)]
  have hrn : ((r : Int)).toNat = r := by omega
  rw [hrn]
  rw [if_pos (by refine ⟨by omega, by omega, by omega, by omega⟩)]
  have hmr : (((rows : Int) - 1) - (r : Int)).toNat = rows - 1 - r := by omega
  have hmc : (((cols : Int) - 1) - (c0 : Int)).toNat = cols - 1 - c0 := by omega
  rw [hmr, hmc]

theorem findSymRowBottomI_after_insert {rows cols : Nat} {sym : Char} {g g1 : Grid}
    {column : Int} {r : Nat} (hrect : Rect rows cols g) (hno : NoSym g sym)
    (hsym : sym ≠ blank)
    (hins : standardInsert rows cols sym g column = some (g1, r)) :
    findSymRowBottomI rows g1 (column - 1).toNat sym = (r : Int) := by
  obtain ⟨hc0, hclt, heq, hrlt, hblankat, _⟩ := standardInsert_eq hins
  have hc0cols : (column - 1).toNat < cols := by omega
  have hmatch : getCell g1 r (column - 1).toNat = sym := by
    rw [heq]
    refine getCell_setCell_self g r _ sym ?_ ?_
    · rw [hrect.1]; exact hc0cols
    · rw [hrect.2 _ (getD_mem g _ (by rw [hrect.1]; exact hc0cols))]; exact hrlt
  have habove : ∀ q, r < q → getCell g1 q (column - 1).toNat ≠ sym := by
    intro q hq
    rw [heq, getCell_setCell_ne_row _ _ _ _ (by omega)]
    by_cases hqr : q < rows
    · exact noSym_getCell hno hsym q _
    · rw [getCell_oob_row hrect _ (Nat.le_of_not_lt hqr)]
      exact fun he => hsym he.symm
  exact findSymRowBottomGo_eq hmatch habove rows hrlt

/-- C5 (amended): on a rectangular board carrying no `T` cell, a successful
teleport placement landing at row `r` of 1-based column `column` behaves
exactly as the claim describes it (`swapSpecStep`), and the decorated
placement then applies gravity to the whole grid. -/
theorem c5_swap_spec {rows cols : Nat} {g g1 : Grid} {column : Int} {r : Nat}
    (hrect : Rect rows cols g) (hnot : NoSym g 'T')
    (hins : standardInsert rows cols 'T' g column = some (g1, r)) :
    teleportCore rows cols g column =
      (swapSpecStep rows cols g1 r (column - 1).toNat, true) ∧
    teleportPlace rows cols g column =
      (normalize (swapSpecStep rows cols g1 r (column - 1).toNat), true) := by
  obtain ⟨hc0, hclt, heq, hrlt, hblankat, _⟩ := standardInsert_eq hins
  have hc0cols : (column - 1).toNat < cols := by omega
  have hfr : findSymRowBottomI rows g1 (column - 1).toNat 'T' = (r : Int) :=
    findSymRowBottomI_after_insert hrect hnot (by decide) hins
  have hcore : teleportCore rows cols g column =
      (swapSpecStep rows cols g1 r (column - 1).toNat, true) := by
    unfold teleportCore
    rw [hins]
    simp only
    rw [hfr, teleportPhase_eq_spec g1 hrlt hc0cols]
  refine ⟨hcore, ?_⟩
  show (normalize (teleportCore rows cols g column).1, (teleportCore rows cols g column).2) = _
  rw [hcore]

/-- Witness for C5: a teleport piece dropped into column 1 of a 2×2 board
with no `T` on it. -/
theorem c5_witness :
    Rect 2 2 [[blank, 'X'], [blank, blank]] ∧
    NoSym [[blank, 'X'], [blank, blank]] 'T' ∧
    standardInsert 2 2 'T' [[blank, 'X'], [blank, blank]] 1 =
      some ([['T', 'X'], [blank, blank]], 0) ∧
    (teleportCore 2 2 [[blank, 'X'], [blank, blank]] 1 =
      (swapSpecStep 2 2 [['T', 'X'], [blank, blank]] 0 ((1 : Int) - 1).toNat, true) ∧
    teleportPlace 2 2 [[blank, 'X'], [blank, blank]] 1 =
      (normalize (swapSpecStep 2 2 [['T', 'X'], [blank, blank]] 0 ((1 : Int) - 1).toNat),
        true)) :=
  ⟨by decide, by decide, by decide, c5_swap_spec (by decide) (by decide) (by decide)⟩

/-- Counterexample for C5 as stated over every board: on a 4×1 board already
holding a `T` at the bottom, the teleport piece inserted into column 1 lands
at row 1, but the removal step re-finds the lowest `T` (row 3) and removes
that one instead: the placed piece stays on the board at the landing cell,
and the board differs from the claim's description of the move. -/
theorem c5_counterexample :
    standardInsert 4 1 'T' [[blank, blank, 'X', 'T']] 1 =
      some ([[blank, 'T', 'X', 'T']], 1) ∧
    teleportCore 4 1 [[blank, blank, 'X', 'T']] 1 = ([[blank, 'T', 'X', blank]], true) ∧
    getCell [[blank, 'T', 'X', blank]] 1 0 = 'T' ∧
    swapSpecStep 4 1 [[blank, 'T', 'X', 'T']] 1 0 = [[blank, blank, 'X', 'T']] ∧
    ([[blank, 'T', 'X', blank]] : Grid) ≠ [[blank, blank, 'X', 'T']] := by
  refine ⟨by decide, by decide, by decide, by decide, by decide⟩

/-! ## Lemmas: occupied-cell counting -/

theorem colOcc_set (col : List Char) (r : Nat) (v : Char) (h : r < col.length) :
    colOcc (col.set r v) + (if col.getD r blank ≠ blank then 1 else 0) =
      colOcc col + (if v ≠ blank then 1 else 0) := by
  unfold colOcc
  induction col generalizing r with
  | nil => simp at h
  | cons a t ih =>
    cases r with
    | zero =>
      simp only [List.set_cons_zero, List.countP_cons, List.getD_cons_zero, bne_iff_ne]
      omega
    | succ j =>
      simp only [List.set_cons_succ, List.countP_cons, List.getD_cons_succ, bne_iff_ne]
      have := ih j (by simpa using h)
      omega

theorem sum_map_set {α : Type} (f : α → Nat) (d : α) :
    ∀ (l : List α) (i : Nat) (x : α), i < l.length →
    ((l.set i x).map f).sum + f (l.getD i d) = (l.map f).sum + f x := by
  intro l
  induction l with
  | nil => intro i x h; simp at h
  | cons a t ih =>
    intro i x h
    cases i with
    | zero =>
      simp only [List.set_cons_zero, List.map_cons, List.sum_cons, List.getD_cons_zero]
      omega
    | succ j =>
      simp only [List.set_cons_succ, List.map_cons, List.sum_cons, List.getD_cons_succ]
      have := ih j x (by simpa using h)
      omega

theorem occCount_setCell {rows cols : Nat} {g : Grid} (hrect : Rect rows cols g)
    (r c : Nat) (v : Char) (hr : r < rows) (hc : c < cols) :
    occCount (setCell g r c v) + (if getCell g r c ≠ blank then 1 else 0) =
      occCount g + (if v ≠ blank then 1 else 0) := by
  have hclen : c < g.length := by rw [hrect.1]; exact hc
  have hcollen : (g.getD c []).length = rows := hrect.2 _ (getD_mem g c hclen)
  have hsum := sum_map_set colOcc [] g c ((g.getD c []).set r v) hclen
  have hcol := colOcc_set (g.getD c []) r v (by rw [hcollen]; exact hr)
  show ((g.set c ((g.getD c []).set r v)).map colOcc).sum + _ = (g.map colOcc).sum + _
  show _ + (if (g.getD c []).getD r blank ≠ blank then 1 else 0) = _
  omega

theorem occCount_insertLowest {rows cols : Nat} {g : Grid} (hrect : Rect rows cols g)
    {c : Nat} (hc : c < cols) (sym : Char) (hsym : sym ≠ blank)
    {rb : Nat} (hrb : rb < rows) (hb : getCell g rb c = blank) :
    occCount (insertLowest rows g c sym) = occCount g + 1 := by
  unfold insertLowest findLowestBlank
  obtain ⟨s, hs⟩ := findLowestBlankGo_isSome hrb hb
  rw [hs]
  show occCount (setCell g s c sym) = occCount g + 1
  obtain ⟨hs1, hs2, _⟩ := findLowestBlankGo_some hs
  have hset := occCount_setCell hrect s c sym hs1 hc
  have h0 : (if getCell g s c ≠ blank then 1 else 0) = 0 := by rw [hs2]; simp
  have h1 : (if sym ≠ blank then 1 else 0) = 1 := by rw [if_pos hsym]
  omega

theorem occCount_teleportPhase {rows cols : Nat} {g1 : Grid} (hrect1 : Rect rows cols g1)
    {fr : Int} {c0 : Nat} (hc0 : c0 < cols) (h0 : 0 ≤ fr) (hfr : fr < (rows : Int))
    (hT : getCell g1 fr.toNat c0 ≠ blank) :
    occCount (teleportPhase rows cols g1 fr c0) + 1 = occCount g1 := by
  simp only [teleportPhase]
  rw [pySetCell_in_range g1 c0 blank h0 hfr]
  have hfrn : fr.toNat < rows := by omega
  have hocc2 := occCount_setCell hrect1 fr.toNat c0 blank hfrn hc0
  rw [if_pos hT, if_neg (by simp)] at hocc2
  set g2 := setCell g1 fr.toNat c0 blank with hg2
  have hrect2 : Rect rows cols g2 := rect_setCell _ _ _ hrect1
  have hg2blank : getCell g2 fr.toNat c0 = blank := by
    rw [hg2]
    refine getCell_setCell_self g1 fr.toNat c0 blank ?_ ?_
    · rw [hrect1.1]; exact hc0
    · rw [hrect1.2 _ (getD_mem g1 c0 (by rw [hrect1.1]; exact hc0))]; exact hfrn
  rw [if_pos (show 0 ≤ (rows : Int) - 1 - fr ∧ (rows : Int) - 1 - fr < (rows : Int) ∧
      0 ≤ (cols : Int) - 1 - (c0 : Int) ∧ (cols : Int) - 1 - (c0 : Int) < (cols : Int) from
      ⟨by omega, by omega, by omega, by omega⟩)]
  set mrn := ((rows : Int) - 1 - fr).toNat with hmrn
  set mcn := ((cols : Int) - 1 - (c0 : Int)).toNat with hmcn
  have hmrlt : mrn < rows := by omega
  have hmclt : mcn < cols := by omega
  by_cases ht : getCell g2 mrn mcn ≠ blank
  · rw [if_pos ht]
    have hocc3 := occCount_setCell hrect2 mrn mcn blank hmrlt hmclt
    rw [if_pos ht, if_neg (by simp)] at hocc3
    set g3 := setCell g2 mrn mcn blank with hg3
    have hrect3 : Rect rows cols g3 := rect_setCell _ _ _ hrect2
    have hg3blank : getCell g3 fr.toNat c0 = blank := by
      by_cases hsame : mrn = fr.toNat ∧ mcn = c0
      · rw [hg3, hsame.1, hsame.2]
        refine getCell_setCell_self g2 fr.toNat c0 blank ?_ ?_
        · rw [hrect2.1]; exact hc0
        · rw [hrect2.2 _ (getD_mem g2 c0 (by rw [hrect2.1]; exact hc0))]; exact hfrn
      · rcases Decidable.not_and_iff_or_not.mp hsame with hne | hne
        · rw [hg3, getCell_setCell_ne_row _ _ _ _ (fun he => hne he.symm)]
          exact hg2blank
        · rw [hg3, getCell_setCell_ne_col _ _ _ _ (fun he => hne he.symm)]
          exact hg2blank
    have hins := occCount_insertLowest hrect3 hc0 (getCell g2 mrn mcn)
      (by simpa using ht) hfrn hg3blank
    omega
  · rw [if_neg ht]
    omega

theorem choosePiece_length : ∀ (inv : List PieceT) (chosen : Char) (p : PieceT)
    (rest : List PieceT), choosePiece inv chosen = some (p, rest) →
    rest.length + 1 = inv.length := by
  intro inv
  induction inv with
  | nil => intro chosen p rest h; simp [choosePiece] at h
  | cons q t ih =>
    intro chosen p rest h
    rw [choosePiece] at h
    by_cases hq : q.symbol = chosen
    · rw [if_pos hq] at h
      injection h with h
      rw [Prod.mk.injEq] at h
      obtain ⟨_, hr⟩ := h
      subst hr
      simp
    · rw [if_neg hq] at h
      cases hrec : choosePiece t chosen with
      | none => rw [hrec] at h; exact absurd h (by simp)
      | some pr =>
        obtain ⟨p2, l2⟩ := pr
        rw [hrec] at h
        injection h with h
        rw [Prod.mk.injEq] at h
        obtain ⟨hp, hr⟩ := h
        subst hr
        have := ih chosen p2 l2 hrec
        simp only [List.length_cons]
        omega

/-- C6: on a rectangular board satisfying the no-floating invariant, a
successful Swap move (a teleport piece found in the inventory and a
successful decorated teleport placement) preserves the number of occupied
cells on the board and shrinks the acting player's inventory by exactly one
piece. -/
theorem c6_swap_preserves_count {rows cols : Nat} {g : Grid} {inv rest : List PieceT}
    {chosen : Char} {column : Int}
    (hsettled : SettledGrid g) (hrect : Rect rows cols g)
    (hchoose : choosePiece inv chosen = some (PieceT.teleport, rest))
    (hsuccess : (teleportPlace rows cols g column).2 = true) :
    occCount (teleportPlace rows cols g column).1 = occCount g ∧
    rest.length + 1 = inv.length := by
  refine ⟨?_, choosePiece_length inv chosen PieceT.teleport rest hchoose⟩
  have hflag : (teleportCore rows cols g column).2 = true := hsuccess
  cases hins : standardInsert rows cols 'T' g column with
  | none =>
    rw [show teleportCore rows cols g column = (g, false) by unfold teleportCore; rw [hins]]
      at hflag
    exact absurd hflag (by simp)
  | some gr =>
    obtain ⟨g1, r⟩ := gr
    obtain ⟨hc0, hclt, heq, hrlt, hblankat, _⟩ := standardInsert_eq hins
    have hc0cols : (column - 1).toNat < cols := by omega
    have hrect1 : Rect rows cols g1 := by rw [heq]; exact rect_setCell _ _ _ hrect
    have hocc1 : occCount g1 = occCount g + 1 := by
      have := occCount_setCell hrect r (column - 1).toNat 'T' hrlt hc0cols
      rw [heq]
      rw [if_neg (by rw [hblankat]; simp), if_pos (by decide)] at this
      omega
    have hmatch : getCell g1 r (column - 1).toNat = 'T' := by
      rw [heq]
      refine getCell_setCell_self g r _ 'T' ?_ ?_
      · rw [hrect.1]; exact hc0cols
      · rw [hrect.2 _ (getD_mem g _ (by rw [hrect.1]; exact hc0cols))]; exact hrlt
    obtain ⟨hf0, hflt, hfat⟩ :=
      @findSymRowBottomGo_found g1 (column - 1).toNat 'T' rows ⟨r, hrlt, hmatch⟩
    have hcore : teleportCore rows cols g column =
        (teleportPhase rows cols g1
          (findSymRowBottomGo g1 (column - 1).toNat 'T' rows) (column - 1).toNat, true) := by
      unfold teleportCore
      rw [hins]
      rfl
    have hphase := @occCount_teleportPhase rows cols g1 hrect1
      (findSymRowBottomGo g1 (column - 1).toNat 'T' rows) (column - 1).toNat
      hc0cols hf0 hflt (by rw [hfat]; decide)
    show occCount (normalize (teleportCore rows cols g column).1) = occCount g
    rw [normalize_occCount, hcore]
    simp only
    omega

/-- Witness for C6: a teleport piece played into column 1 of a settled 2×2
board holding a single `X`. -/
theorem c6_witness :
    SettledGrid [[blank, 'X'], [blank, blank]] ∧
    Rect 2 2 [[blank, 'X'], [blank, blank]] ∧
    choosePiece [PieceT.teleport] 'T' = some (PieceT.teleport, []) ∧
    (teleportPlace 2 2 [[blank, 'X'], [blank, blank]] 1).2 = true ∧
    (occCount (teleportPlace 2 2 [[blank, 'X'], [blank, blank]] 1).1 =
      occCount [[blank, 'X'], [blank, blank]] ∧
    List.length ([] : List PieceT) + 1 = List.length [PieceT.teleport]) :=
  ⟨by decide, by decide, by decide, by decide,
    @c6_swap_preserves_count 2 2 [[blank, 'X'], [blank, blank]] [PieceT.teleport] []
      'T' 1 (by decide) (by decide) (by decide) (by decide)⟩

/-- C2 (code evaluation at the failing inputs): a placement rejected for a
full column (left) or an out-of-range column (right) leaves the board
unchanged and returns the re-prompt flag, but the chosen piece — popped by
`choose_piece` before the placement attempt — is gone from the inventory. -/
theorem c2_piece_lost :
    attemptMove 1 1 [['O']] [PieceT.standard 'X'] 'X' 1 = ([['O']], [], false) ∧
    attemptMove 2 1 [[blank, blank]] [PieceT.standard 'X'] 'X' 5 =
      ([[blank, blank]], [], false) := by
  refine ⟨by decide, by decide⟩

/-! ## Lemmas: piece allocation -/

theorem addPiece_replicate (symbol : Char) : ∀ (n : Nat) (pieces : List PieceT),
    addPiece pieces symbol n = pieces ++ List.replicate n (mkPiece symbol) := by
  intro n
  induction n with
  | zero => intro pieces; simp [addPiece]
  | succ m ih =>
    intro pieces
    rw [addPiece, ih]
    simp [List.replicate_succ]

/-- C10: `add_piece` dispatches on the symbol alone — quantity `n` with
symbol `B` appends `n` bomb pieces and with symbol `T` appends `n` teleport
pieces, whatever kind of piece the caller meant to add; consequently a player
whose setup symbol is `B` or `T` receives bomb or teleport pieces in place of
their entire standard-piece allocation: their start inventory contains no
standard piece at all. -/
theorem c10_symbol_hijack :
    (∀ (pieces : List PieceT) (n : Nat),
      addPiece pieces 'B' n = pieces ++ List.replicate n PieceT.bomb ∧
      addPiece pieces 'T' n = pieces ++ List.replicate n PieceT.teleport) ∧
    (∀ (first : Bool) (rows cols : Nat),
      (playerStartPieces first 'B' rows cols).countP PieceT.isStandard = 0 ∧
      (playerStartPieces first 'T' rows cols).countP PieceT.isStandard = 0) := by
  have hB : ∀ (pieces : List PieceT) (n : Nat),
      addPiece pieces 'B' n = pieces ++ List.replicate n PieceT.bomb := by
    intro pieces n
    rw [addPiece_replicate]
    rfl
  have hT : ∀ (pieces : List PieceT) (n : Nat),
      addPiece pieces 'T' n = pieces ++ List.replicate n PieceT.teleport := by
    intro pieces n
    rw [addPiece_replicate]
    rfl
  refine ⟨fun pieces n => ⟨hB pieces n, hT pieces n⟩, ?_⟩
  intro first rows cols
  constructor <;>
  · unfold playerStartPieces
    rw [addPiece_replicate, addPiece_replicate, addPiece_replicate]
    rw [List.countP_eq_zero]
    intro p hp
    simp only [List.append_assoc, List.nil_append, List.mem_append,
      List.mem_replicate] at hp
    rcases hp with ⟨_, rfl⟩ | ⟨_, rfl⟩ | ⟨_, rfl⟩ <;> decide

/-! ## Outcome resolution theorems -/

/-- C8: whenever the mover's anchored check and the opponent's full-board
sweep both report a qualifying run in the same turn, the resolution chain of
`Game.begin` yields a draw — never a win announced for either single
player. -/
theorem c8_simultaneous_draw (rows cols : Nat) (g : Grid) (sym osym : Char)
    (r0 c0 : Int) (boardFull noPieces : Bool)
    (hm : (anchoredCheck rows cols g sym r0 c0).1 = true)
    (ho : (boardScan rows cols g osym).1 = true) :
    resolveOutcome (anchoredCheck rows cols g sym r0 c0).1
      (boardScan rows cols g osym).1 boardFull noPieces = Outcome.draw := by
  rw [hm, ho]
  rfl

/-- Witness for C8: on a 4×5 board the mover's `X` column-0 vertical four and
the opponent's `O` bottom-row horizontal four hold simultaneously. -/
theorem c8_witness :
    (anchoredCheck 4 5 [['X', 'X', 'X', 'X'], [blank, blank, blank, 'O'],
      [blank, blank, blank, 'O'], [blank, blank, blank, 'O'],
      [blank, blank, blank, 'O']] 'X' 0 0).1 = true ∧
    (boardScan 4 5 [['X', 'X', 'X', 'X'], [blank, blank, blank, 'O'],
      [blank, blank, blank, 'O'], [blank, blank, blank, 'O'],
      [blank, blank, blank, 'O']] 'O').1 = true ∧
    resolveOutcome
      (anchoredCheck 4 5 [['X', 'X', 'X', 'X'], [blank, blank, blank, 'O'],
        [blank, blank, blank, 'O'], [blank, blank, blank, 'O'],
        [blank, blank, blank, 'O']] 'X' 0 0).1
      (boardScan 4 5 [['X', 'X', 'X', 'X'], [blank, blank, blank, 'O'],
        [blank, blank, blank, 'O'], [blank, blank, blank, 'O'],
        [blank, blank, blank, 'O']] 'O').1 false false = Outcome.draw :=
  ⟨by decide, by decide,
    c8_simultaneous_draw 4 5 [['X', 'X', 'X', 'X'], [blank, blank, blank, 'O'],
      [blank, blank, blank, 'O'], [blank, blank, blank, 'O'],
      [blank, blank, blank, 'O']] 'X' 'O' 0 0 false false (by decide) (by decide)⟩

/-- C1 (code evaluation at the failing input): the mover plays a teleport
piece into column 1 of a 4×4 board whose column 0 holds three `O`s and whose
cell (3,3) holds an `O`; the relocated `O` completes the opponent's vertical
four, so only the opponent's sweep reports a run — yet the resolution
announces the mover as the winner, because the `elif otherplayer_wins`
branch prints the current player's name (lines 519-523). -/
theorem c1_opponent_win_announced_for_mover :
    teleportPlace 4 4
      [[blank, 'O', 'O', 'O'], [blank, blank, blank, blank],
        [blank, blank, blank, blank], [blank, blank, blank, 'O']] 1 =
      ([['O', 'O', 'O', 'O'], [blank, blank, blank, blank],
        [blank, blank, blank, blank], [blank, blank, blank, blank]], true) ∧
    findSymRowTopI 4 [['O', 'O', 'O', 'O'], [blank, blank, blank, blank],
      [blank, blank, blank, blank], [blank, blank, blank, blank]] 0 'T' = -1 ∧
    (anchoredCheck 4 4 [['O', 'O', 'O', 'O'], [blank, blank, blank, blank],
      [blank, blank, blank, blank], [blank, blank, blank, blank]] 'T'
      (findSymRowTopI 4 [['O', 'O', 'O', 'O'], [blank, blank, blank, blank],
        [blank, blank, blank, blank], [blank, blank, blank, blank]] 0 'T') 0).1 = false ∧
    (boardScan 4 4 [['O', 'O', 'O', 'O'], [blank, blank, blank, blank],
      [blank, blank, blank, blank], [blank, blank, blank, blank]] 'O').1 = true ∧
    resolveOutcome
      (anchoredCheck 4 4 [['O', 'O', 'O', 'O'], [blank, blank, blank, blank],
        [blank, blank, blank, blank], [blank, blank, blank, blank]] 'T'
        (findSymRowTopI 4 [['O', 'O', 'O', 'O'], [blank, blank, blank, blank],
          [blank, blank, blank, blank], [blank, blank, blank, blank]] 0 'T') 0).1
      (boardScan 4 4 [['O', 'O', 'O', 'O'], [blank, blank, blank, blank],
        [blank, blank, blank, blank], [blank, blank, blank, blank]] 'O').1
      (boardIsFull [['O', 'O', 'O', 'O'], [blank, blank, blank, blank],
        [blank, blank, blank, blank], [blank, blank, blank, blank]]) false =
      Outcome.winAnnounced Who.mover := by
  refine ⟨by decide, by decide, by decide, by decide, by decide⟩

/-! ## Lemmas: read coordinates of the win checks -/

theorem scanWhile_reads {rows cols : Nat} {g : Grid} {sym : Char}
    {guard : Int → Int → Bool} {dr dc : Int} (I : Int → Int → Prop)
    (hstep : ∀ r c, guard r c = true → I r c → I (r + dr) (c + dc)) :
    ∀ (fuel : Nat) (r c : Int), I r c →
    ∀ p ∈ (scanWhile rows cols g sym guard dr dc fuel r c).2,
      I p.1 p.2 ∧ guard p.1 p.2 = true := by
  intro fuel
  induction fuel with
  | zero => intro r c _ p hp; simp [scanWhile] at hp
  | succ f ih =>
    intro r c hI p hp
    rw [scanWhile] at hp
    by_cases hg : guard r c = true
    · rw [if_pos hg] at hp
      by_cases hcell : pyCell rows cols g r c = sym
      · rw [if_pos hcell] at hp
        simp only [List.mem_cons] at hp
        rcases hp with rfl | hp
        · exact ⟨hI, hg⟩
        · exact ih (r + dr) (c + dc) (hstep r c hg hI) p hp
      · rw [if_neg hcell] at hp
        simp only [List.mem_singleton] at hp
        subst hp
        exact ⟨hI, hg⟩
    · rw [if_neg hg] at hp
      simp at hp

theorem anchoredCheck_reads_inB {rows cols : Nat} {g : Grid} {sym : Char}
    {r0 c0 : Int} (hr0 : 0 ≤ r0) (hr1 : r0 < (rows : Int)) (hc0 : 0 ≤ c0)
    (hc1 : c0 < (cols : Int)) :
    ∀ p ∈ (anchoredCheck rows cols g sym r0 c0).2, InB rows cols p := by
  intro p hp
  simp only [anchoredCheck, List.mem_append] at hp
  rcases hp with ((((((hp | hp) | hp) | hp) | hp) | hp) | hp) | hp
  · -- horizontal left: guard 0 ≤ c, invariant r = r0 ∧ c < cols
    obtain ⟨⟨he, hlt⟩, hg⟩ := scanWhile_reads (fun r c => r = r0 ∧ c < (cols : Int))
      (fun r c _ hI => ⟨by omega, by omega⟩) _ r0 (c0 - 1) ⟨rfl, by omega⟩ p hp
    have := of_decide_eq_true hg
    exact ⟨by omega, by omega, this, hlt⟩
  · -- horizontal right: guard c < cols, invariant r = r0 ∧ 0 ≤ c
    obtain ⟨⟨he, hge⟩, hg⟩ := scanWhile_reads (fun r c => r = r0 ∧ 0 ≤ c)
      (fun r c _ hI => ⟨by omega, by omega⟩) _ r0 (c0 + 1) ⟨rfl, by omega⟩ p hp
    have := of_decide_eq_true hg
    exact ⟨by omega, by omega, hge, this⟩
  · -- diagonal up-left: guard 0 ≤ r ∧ 0 ≤ c, invariant r < rows ∧ c < cols
    obtain ⟨⟨h1, h2⟩, hg⟩ := scanWhile_reads
      (fun r c => r < (rows : Int) ∧ c < (cols : Int))
      (fun r c _ hI => ⟨by omega, by omega⟩) _ (r0 - 1) (c0 - 1) ⟨by omega, by omega⟩ p hp
    rw [Bool.and_eq_true] at hg
    have hga := of_decide_eq_true hg.1
    have hgb := of_decide_eq_true hg.2
    exact ⟨hga, h1, hgb, h2⟩
  · -- diagonal down-right: guard r < rows ∧ c < cols, invariant 0 ≤ r ∧ 0 ≤ c
    obtain ⟨⟨h1, h2⟩, hg⟩ := scanWhile_reads (fun r c => 0 ≤ r ∧ 0 ≤ c)
      (fun r c _ hI => ⟨by omega, by omega⟩) _ (r0 + 1) (c0 + 1) ⟨by omega, by omega⟩ p hp
    rw [Bool.and_eq_true] at hg
    have hga := of_decide_eq_true hg.1
    have hgb := of_decide_eq_true hg.2
    exact ⟨h1, hga, h2, hgb⟩
  · -- diagonal up-right: guard 0 ≤ r ∧ c < cols, invariant r < rows ∧ 0 ≤ c
    obtain ⟨⟨h1, h2⟩, hg⟩ := scanWhile_reads (fun r c => r < (rows : Int) ∧ 0 ≤ c)
      (fun r c _ hI => ⟨by omega, by omega⟩) _ (r0 - 1) (c0 + 1) ⟨by omega, by omega⟩ p hp
    rw [Bool.and_eq_true] at hg
    have hga := of_decide_eq_true hg.1
    have hgb := of_decide_eq_true hg.2
    exact ⟨hga, h1, h2, hgb⟩
  · -- diagonal down-left: guard r < rows ∧ 0 ≤ c, invariant 0 ≤ r ∧ c < cols
    obtain ⟨⟨h1, h2⟩, hg⟩ := scanWhile_reads (fun r c => 0 ≤ r ∧ c < (cols : Int))
      (fun r c _ hI => ⟨by omega, by omega⟩) _ (r0 + 1) (c0 - 1) ⟨by omega, by omega⟩ p hp
    rw [Bool.and_eq_true] at hg
    have hga := of_decide_eq_true hg.1
    have hgb := of_decide_eq_true hg.2
    exact ⟨h1, hga, hgb, h2⟩
  · -- vertical up: guard 0 ≤ r, invariant r < rows ∧ c = c0
    obtain ⟨⟨h1, h2⟩, hg⟩ := scanWhile_reads
      (fun r c => r < (rows : Int) ∧ c = c0)
      (fun r c _ hI => ⟨by omega, by omega⟩) _ (r0 - 1) c0 ⟨by omega, rfl⟩ p hp
    have := of_decide_eq_true hg
    exact ⟨this, h1, by omega, by omega⟩
  · -- vertical down: guard r < rows, invariant 0 ≤ r ∧ c = c0
    obtain ⟨⟨h1, h2⟩, hg⟩ := scanWhile_reads (fun r c => 0 ≤ r ∧ c = c0)
      (fun r c _ hI => ⟨by omega, by omega⟩) _ (r0 + 1) c0 ⟨by omega, rfl⟩ p hp
    have := of_decide_eq_true hg
    exact ⟨h1, this, by omega, by omega⟩

theorem runCountGo_reads {rows cols : Nat} {g : Grid} {sym : Char}
    {bound : Int → Int → Bool} {r c : Nat} {dr dc : Int}
    (hsub : ∀ x : Nat,
      bound ((r : Int) + (x : Int) * dr) ((c : Int) + (x : Int) * dc) = true →
      InB rows cols ((r : Int) + (x : Int) * dr, (c : Int) + (x : Int) * dc)) :
    ∀ (fuel x : Nat), ∀ p ∈ (runCountGo rows cols g sym bound r c dr dc fuel x).2,
      InB rows cols p := by
  intro fuel
  induction fuel with
  | zero => intro x p hp; simp [runCountGo] at hp
  | succ f ih =>
    intro x p hp
    simp only [runCountGo] at hp
    by_cases hg : bound ((r : Int) + (x : Int) * dr) ((c : Int) + (x : Int) * dc) = true
    · rw [if_pos hg] at hp
      by_cases hcell :
          pyCell rows cols g ((r : Int) + (x : Int) * dr) ((c : Int) + (x : Int) * dc) = sym
      · rw [if_pos hcell] at hp
        simp only [List.mem_cons] at hp
        rcases hp with rfl | hp
        · exact hsub x hg
        · exact ih (x + 1) p hp
      · rw [if_neg hcell] at hp
        simp only [List.mem_singleton] at hp
        subst hp
        exact hsub x hg
    · rw [if_neg hg] at hp
      simp at hp

theorem visitCell_reads_inB {rows cols : Nat} {g : Grid} {sym : Char} {r c : Nat}
    (hr : r < rows) (hc : c < cols) :
    ∀ p ∈ (visitCell rows cols g sym r c).2, InB rows cols p := by
  have hF : InB rows cols ((r : Int), (c : Int)) := ⟨by omega, by omega, by omega, by omega⟩
  have hH : ∀ p ∈ (runCount rows cols g sym
      (fun _ tc => decide (tc < (cols : Int))) r c 0 1).2, InB rows cols p := by
    refine runCountGo_reads ?_ 3 1
    intro x hg
    have := of_decide_eq_true hg
    exact ⟨by omega, by omega, by omega, by omega⟩
  have hV : ∀ p ∈ (runCount rows cols g sym
      (fun tr _ => decide (tr < (rows : Int))) r c 1 0).2, InB rows cols p := by
    refine runCountGo_reads ?_ 3 1
    intro x hg
    have := of_decide_eq_true hg
    exact ⟨by omega, by omega, by omega, by omega⟩
  have hBR : ∀ p ∈ (runCount rows cols g sym
      (fun tr tc => decide (tr < (rows : Int)) && decide (tc < (cols : Int))) r c 1 1).2,
      InB rows cols p := by
    refine runCountGo_reads ?_ 3 1
    intro x hg
    rw [Bool.and_eq_true] at hg
    have h1 := of_decide_eq_true hg.1
    have h2 := of_decide_eq_true hg.2
    exact ⟨by omega, by omega, by omega, by omega⟩
  have hBL : ∀ p ∈ (runCount rows cols g sym
      (fun tr tc => decide (tr < (rows : Int)) && decide (0 ≤ tc)) r c 1 (-1)).2,
      InB rows cols p := by
    refine runCountGo_reads ?_ 3 1
    intro x hg
    rw [Bool.and_eq_true] at hg
    have h1 := of_decide_eq_true hg.1
    have h2 := of_decide_eq_true hg.2
    exact ⟨by omega, by omega, by omega, by omega⟩
  intro p hp
  simp only [visitCell] at hp
  split at hp
  · split at hp
    · simp only [List.mem_append, List.mem_singleton] at hp
      rcases hp with rfl | hp
      · exact hF
      · exact hH p hp
    · split at hp
      · simp only [List.mem_append, List.mem_singleton] at hp
        rcases hp with (rfl | hp) | hp
        · exact hF
        · exact hH p hp
        · exact hV p hp
      · split at hp
        · simp only [List.mem_append, List.mem_singleton] at hp
          rcases hp with ((rfl | hp) | hp) | hp
          · exact hF
          · exact hH p hp
          · exact hV p hp
          · exact hBR p hp
        · split at hp
          · simp only [List.mem_append, List.mem_singleton] at hp
            rcases hp with (((rfl | hp) | hp) | hp) | hp
            · exact hF
            · exact hH p hp
            · exact hV p hp
            · exact hBR p hp
            · exact hBL p hp
          · simp only [List.mem_append, List.mem_singleton] at hp
            rcases hp with (((rfl | hp) | hp) | hp) | hp
            · exact hF
            · exact hH p hp
            · exact hV p hp
            · exact hBR p hp
            · exact hBL p hp
  · simp only [List.mem_singleton] at hp
    subst hp
    exact hF

theorem cellSeq_mem {rows cols : Nat} : ∀ rc ∈ cellSeq rows cols,
    rc.1 < rows ∧ rc.2 < cols := by
  intro rc h
  unfold cellSeq at h
  simp only [List.mem_flatten, List.mem_map] at h
  obtain ⟨l, ⟨r, hr, rfl⟩, hmem⟩ := h
  simp only [List.mem_map] at hmem
  obtain ⟨c, hc, rfl⟩ := hmem
  exact ⟨List.mem_range.mp hr, List.mem_range.mp hc⟩

theorem sweepCells_reads_inB {rows cols : Nat} {g : Grid} {sym : Char} :
    ∀ (cells : List (Nat × Nat)), (∀ rc ∈ cells, rc.1 < rows ∧ rc.2 < cols) →
    ∀ p ∈ (sweepCells rows cols g sym cells).2, InB rows cols p := by
  intro cells
  induction cells with
  | nil => intro _ p hp; simp [sweepCells] at hp
  | cons rc rest ih =>
    intro hcells p hp
    obtain ⟨h1, h2⟩ := hcells rc (List.mem_cons_self rc rest)
    simp only [sweepCells] at hp
    split at hp
    · exact visitCell_reads_inB h1 h2 p hp
    · simp only [List.mem_append] at hp
      rcases hp with hp | hp
      · exact visitCell_reads_inB h1 h2 p hp
      · exact ih (fun x hx => hcells x (List.mem_cons_of_mem rc hx)) p hp

theorem findSymRowTopGo_found {g : Grid} {c : Nat} {sym : Char} :
    ∀ (fuel k : Nat), (∃ j, k ≤ j ∧ j < k + fuel ∧ getCell g j c = sym) →
    0 ≤ findSymRowTopGo g c sym fuel k ∧
      findSymRowTopGo g c sym fuel k < ((k + fuel : Nat) : Int) := by
  intro fuel
  induction fuel with
  | zero => rintro k ⟨j, h1, h2, _⟩; omega
  | succ f ih =>
    rintro k ⟨j, h1, h2, h3⟩
    rw [findSymRowTopGo]
    by_cases hk : getCell g k c = sym
    · rw [if_pos hk]
      constructor <;> omega
    · rw [if_neg hk]
      have hjk : k + 1 ≤ j := by
        by_cases hjq : j = k
        · subst hjq; exact absurd h3 hk
        · omega
      obtain ⟨ha, hb⟩ := ih (k + 1) ⟨j, hjk, by omega, h3⟩
      exact ⟨ha, by omega⟩

/-- C3 (amended): for a successful standard placement, the anchor row that
`Game.begin` re-derives is a real row of the board, every grid read of the
mover's anchored four-axis check is inside the declared `rows × cols`
dimensions, and every grid read of the opponent's full-board sweep is inside
them as well.  The restriction to the Standard variant is forced by
`c3_counterexample`: after an AreaClear or Swap placement the re-scan misses
(the placed symbol is no longer on the board) and the anchored check reads at
row coordinate -1. -/
theorem c3_standard_reads_inbounds {rows cols : Nat} {sym : Char} {g g1 : Grid}
    {column : Int} {r : Nat} (oppSym : Char) (hrect : Rect rows cols g)
    (hins : standardInsert rows cols sym g column = some (g1, r)) :
    0 ≤ findSymRowTopI rows g1 (column - 1).toNat sym ∧
    findSymRowTopI rows g1 (column - 1).toNat sym < (rows : Int) ∧
    (∀ p ∈ (anchoredCheck rows cols g1 sym
      (findSymRowTopI rows g1 (column - 1).toNat sym) (column - 1)).2,
      InB rows cols p) ∧
    (∀ p ∈ (boardScan rows cols g1 oppSym).2, InB rows cols p) := by
  obtain ⟨hc0, hclt, heq, hrlt, _, _⟩ := standardInsert_eq hins
  have hc0cols : (column - 1).toNat < cols := by omega
  have hmatch : getCell g1 r (column - 1).toNat = sym := by
    rw [heq]
    refine getCell_setCell_self g r _ sym ?_ ?_
    · rw [hrect.1]; exact hc0cols
    · rw [hrect.2 _ (getD_mem g _ (by rw [hrect.1]; exact hc0cols))]; exact hrlt
  have htop := @findSymRowTopGo_found g1 (column - 1).toNat sym
    rows 0 ⟨r, by omega, by omega, hmatch⟩
  have h0le : 0 ≤ findSymRowTopI rows g1 (column - 1).toNat sym := htop.1
  have hlt : findSymRowTopI rows g1 (column - 1).toNat sym < (rows : Int) := by
    have := htop.2
    simpa using this
  refine ⟨h0le, hlt, ?_, ?_⟩
  · exact anchoredCheck_reads_inB h0le hlt (by omega) (by omega)
  · exact sweepCells_reads_inB (cellSeq rows cols) cellSeq_mem

/-- Witness for C3 (amended): a standard `X` dropped into column 1 of an
empty 2×2 board. -/
theorem c3_witness :
    Rect 2 2 [[blank, blank], [blank, blank]] ∧
    standardInsert 2 2 'X' [[blank, blank], [blank, blank]] 1 =
      some ([[blank, 'X'], [blank, blank]], 1) ∧
    (0 ≤ findSymRowTopI 2 [[blank, 'X'], [blank, blank]] ((1 : Int) - 1).toNat 'X' ∧
    findSymRowTopI 2 [[blank, 'X'], [blank, blank]] ((1 : Int) - 1).toNat 'X' < (2 : Int) ∧
    (∀ p ∈ (anchoredCheck 2 2 [[blank, 'X'], [blank, blank]] 'X'
      (findSymRowTopI 2 [[blank, 'X'], [blank, blank]] ((1 : Int) - 1).toNat 'X')
      ((1 : Int) - 1)).2, InB 2 2 p) ∧
    (∀ p ∈ (boardScan 2 2 [[blank, 'X'], [blank, blank]] 'O').2, InB 2 2 p)) :=
  ⟨by decide, by decide,
    @c3_standard_reads_inbounds 2 2 'X' [[blank, blank], [blank, blank]]
      [[blank, 'X'], [blank, blank]] 1 1 'O' (by decide) (by decide)⟩

/-- Counterexample for C3 as stated over every piece variant: a bomb dropped
into column 1 of an empty 2×2 board succeeds, the re-scan for its symbol
misses (the bomb cleared itself), the anchor row is -1, and the anchored
check performs a grid read at coordinate (-1, 1) — outside `[0, rows)`
(Python's negative indexing silently aliases it to the bottom row). -/
theorem c3_counterexample :
    (bombPlace 2 2 [[blank, blank], [blank, blank]] 1).2 = true ∧
    findSymRowTopI 2 (bombPlace 2 2 [[blank, blank], [blank, blank]] 1).1 0 'B' = -1 ∧
    ((-1 : Int), (1 : Int)) ∈ (anchoredCheck 2 2
      (bombPlace 2 2 [[blank, blank], [blank, blank]] 1).1 'B'
      (findSymRowTopI 2 (bombPlace 2 2 [[blank, blank], [blank, blank]] 1).1 0 'B')
      ((1 : Int) - 1)).2 ∧
    ¬ InB 2 2 ((-1 : Int), (1 : Int)) := by
  refine ⟨by decide, by decide, by decide, by decide⟩

end ConnectFour
